import Mathlib

/-!
PMBus PSU driver (`pmbus.cpp`, `pmbus.h`): a shallow embedding

The driver class `PMBus` is embedded as a record of its member variables
together with the environment it talks to (the receive buffer of the
two-wire bus, the function-static `last_scan` of `scan`, and the
trace of everything the driver did to the outside world).

Conventions of the embedding.

* Machine integers are naturals or integers, reduced explicitly where the
  C++ conversion reduces them (`u8`, `u16`, `u32`).
* `float` values are rationals.  Every float the claims below look at is
  either a constant of the source, or `y * 2^n` for an 11-bit `y` and a
  5-bit `n`, or `r / 512` for a 16-bit `r`: all of them are represented
  exactly in binary32, and the comparisons on them are exact.
* A write through a pointer that is outside its array is undefined
  behaviour; the embedding returns `none` there.
* The device on the bus is an arbitrary function from the trace of bus
  operations so far to the bytes it delivers for a read request.
* The diagnostic text printed by `init` is not modelled.
-/

/-- Everything the driver does to the outside world, in the order it does it. -/
inductive PMBus.Event where
  | pinMode (pin : Int) (mode : Nat)
  | digitalWrite (pin : Int) (val : Int)
  | delay (ms : Nat)
  | beginTransmission (address : Nat)
  | write (byte : Nat)
  | endTransmission (sendStop : Bool)
  | requestFrom (address quantity : Nat) (sendStop : Bool)
  deriving DecidableEq

/-- The device at the other end of the bus: given the trace up to and
including a `requestFrom`, the bytes it delivers. -/
abbrev PMBus.Device := List PMBus.Event → List Nat

/-- The member variables of `class PMBus` (pmbus.h 35-61), followed by the
environment: `last_scan` (the static of `scan`), the receive buffer of the
bus `rx`, and the trace. -/
structure PMBus where
  mfr_id : Mathlib.Vector Nat 8
  mfr_model : Mathlib.Vector Nat 24
  mfr_revision : Mathlib.Vector Nat 4
  mfr_location : Mathlib.Vector Nat 8
  mfr_date : Mathlib.Vector Nat 8
  mfr_serial : Mathlib.Vector Nat 16
  V_in : ℚ
  I_in : ℚ
  V_out : ℚ
  I_out : ℚ
  T : Mathlib.Vector ℚ 3
  fan : Mathlib.Vector ℚ 2
  W_in : ℚ
  W_out : ℚ
  pmbus_revision : Nat
  vout_mode : Nat
  status_u8 : Nat
  status_vout : Nat
  status_iout : Nat
  status_input : Nat
  status_temperature : Nat
  status_cml : Nat
  status_other : Nat
  status_mfr_specific : Nat
  status_fans : Nat
  status_word : Nat
  vout_command : Nat
  total_power_on : Nat
  fans : Nat
  temperatures : Nat
  PSON_do : Int
  I2C_enable_do : Int
  output_direction : Int
  status_reg : Mathlib.Vector Nat 10
  vout_scale : ℚ
  pmbus_address : Nat
  Debug : Bool
  last_scan : Nat
  rx : List Nat
  trace : List PMBus.Event

namespace PMBus

/-- Conversion to `uint8_t`. -/
def u8 (x : Int) : Nat := (x % 256).toNat

/-- Conversion to `uint16_t`. -/
def u16 (x : Int) : Nat := (x % 65536).toNat

/-- Conversion to `uint32_t`. -/
def u32 (x : Int) : Nat := (x % 4294967296).toNat

/-- Conversion to `short int` (16 bits, two's complement). -/
def toShort (x : Int) : Int := (x + 32768) % 65536 - 32768

/-- A signed bit-field of `bits` bits holding the low `bits` bits of `v`:
the value it reads as (two's complement, as GCC lays out `int y:11`). -/
def signExtend (bits : Nat) (v : Nat) : Int :=
  if v % 2 ^ bits < 2 ^ (bits - 1) then ((v % 2 ^ bits : Nat) : Int)
  else ((v % 2 ^ bits : Nat) : Int) - ((2 ^ bits : Nat) : Int)

/-- The field `conv.linear.y` of `linear_t` (pmbus.h 44): bits 0..10. -/
def linear_y (w : Nat) : Int := signExtend 11 w

/-- The field `conv.linear.n` of `linear_t` (pmbus.h 44): bits 11..15. -/
def linear_n (w : Nat) : Int := signExtend 5 (w / 2 ^ 11)

/-- `PMBus::linear2float` (pmbus.cpp 460-470):
`(float) conv.linear.y * pow(2.0,(float) conv.linear.n)`. -/
def linear2float (w : Nat) : ℚ := (linear_y w : ℚ) * (2 : ℚ) ^ (linear_n w)

/-- The value of `width` bits of `w` starting at bit `lo`, read as a two's
complement integer: the top bit weighs `-2^(width-1)`, the bits below it
their usual weight. -/
def twosComplementBits (w lo width : Nat) : Int :=
  ((w / 2 ^ lo % 2 ^ (width - 1) : Nat) : Int)
    - ((2 ^ (width - 1) : Nat) : Int) * ((w / 2 ^ (lo + width - 1) % 2 : Nat) : Int)

/-- Packing of a mantissa and an exponent into a linear11 word. -/
def linear11_word (y n : Int) : Nat := ((n % 32) * 2048 + y % 2048).toNat

/-- The constant string `"DPS750TB1"` of check_model, as bytes. -/
def DPS750TB1 : List Nat := [68, 80, 83, 55, 53, 48, 84, 66, 49]

/-- The constant string `"D1U86T-W-800-12-HB4C"` of check_model, as bytes. -/
def D1U86T : List Nat :=
  [68, 49, 85, 56, 54, 84, 45, 87, 45, 56, 48, 48, 45, 49, 50, 45, 72, 66, 52, 67]

/-- `for (i = a; k iterations; ++i) body`: the body runs at `i`, `i+1`, ...
and the loop is abandoned as soon as one iteration is undefined. -/
def forLoop {σ : Type} (body : Nat → σ → Option σ) : Nat → Nat → σ → Option σ
  | _, 0, s => some s
  | i, k + 1, s =>
    match body i s with
    | none => none
    | some s1 => forLoop body (i + 1) k s1

/-- `buffer[i] = v` on an array of `n` elements. -/
def poke {α : Type} {n : Nat} (buffer : Mathlib.Vector α n) (i : Nat) (v : α) :
    Option (Mathlib.Vector α n) :=
  if h : i < n then some (buffer.set ⟨i, h⟩ v) else none

/-- Appends one event to the trace. -/
def emit (e : Event) (s : PMBus) : PMBus := { s with trace := s.trace ++ [e] }

/-- `delay(ms)`. -/
def delay (ms : Nat) (s : PMBus) : PMBus := emit (.delay ms) s

/-- `I2C->requestFrom(address, quantity, sendStop)`: the receive buffer is
replaced by what the device delivers, at most `quantity` bytes. -/
def requestFrom (dev : Device) (address quantity : Nat) (sendStop : Bool) (s : PMBus) : PMBus :=
  { s with
    trace := s.trace ++ [.requestFrom address quantity sendStop]
    rx := ((dev (s.trace ++ [.requestFrom address quantity sendStop])).map (· % 256)).take
            quantity }

/-- `I2C->read()`: the next received byte, or -1 when there is none. -/
def I2C_read (s : PMBus) : Int × PMBus :=
  match s.rx with
  | [] => (-1, s)
  | b :: rest => ((b : Int), { s with rx := rest })

/-- `PMBus::write_byte` (pmbus.cpp 337-345). -/
def write_byte (reg value : Nat) (s : PMBus) : PMBus :=
  emit (.endTransmission true)
    (emit (.write (value % 256)) (emit (.write (reg % 256))
      (emit (.beginTransmission s.pmbus_address) s)))

/-- The address phase shared by the three read functions:
`beginTransmission; write(reg); endTransmission(false)`. -/
def select (reg : Nat) (s : PMBus) : PMBus :=
  emit (.endTransmission false)
    (emit (.write (reg % 256)) (emit (.beginTransmission s.pmbus_address) s))

/-- `PMBus::read_byte` (pmbus.cpp 351-360). -/
def read_byte (dev : Device) (reg : Nat) (s : PMBus) : Nat × PMBus :=
  let s1 := select reg s
  let s2 := requestFrom dev s1.pmbus_address 1 true s1
  let r := I2C_read s2
  (u8 r.1, r.2)

/-- `PMBus::read_word` (pmbus.cpp 366-380): `value = read(); value |= read() << 8;`
on a `uint16_t`. -/
def read_word (dev : Device) (reg : Nat) (s : PMBus) : Nat × PMBus :=
  let s1 := select reg s
  let s2 := requestFrom dev s1.pmbus_address 2 true s1
  let r1 := I2C_read s2
  let value := u16 r1.1
  let r2 := I2C_read r1.2
  (value ||| u16 (r2.1 * 256), r2.2)

/-- `PMBus::read_block` (pmbus.cpp 404-420). -/
def read_block {n : Nat} (dev : Device) (reg bytes : Nat) (buffer : Mathlib.Vector Nat n)
    (s : PMBus) : Option (Mathlib.Vector Nat n × PMBus) :=
  let s1 := select reg s
  let s2 := requestFrom dev s1.pmbus_address (bytes % 256) true s1
  forLoop
    (fun i p =>
      let r := I2C_read p.2
      match poke p.1 i (u8 r.1) with
      | none => none
      | some b => some (b, r.2))
    0 bytes (buffer, s2)

/-- `PMBus::read_string` (pmbus.cpp 386-398): the length returned, the buffer
and the state afterwards. -/
def read_string {n : Nat} (dev : Device) (reg bytes : Nat) (buffer : Mathlib.Vector Nat n)
    (s : PMBus) : Option (Nat × Mathlib.Vector Nat n × PMBus) :=
  let r := read_byte dev reg s
  if r.1 ≠ 0 ∧ r.1 < bytes then
    match read_block dev reg r.1 buffer r.2 with
    | none => none
    | some p => some (r.1, p.1, p.2)
  else some (r.1, buffer, r.2)

/-- The `float *` arguments that scan passes to read_linear. -/
inductive FloatRef where
  | V_in | I_in | W_in | V_out | I_out | W_out
  | T (i : Fin 3)
  | fan (i : Fin 2)
  deriving DecidableEq

/-- The value `*value` of a float pointer. -/
def FloatRef.get : FloatRef → PMBus → ℚ
  | .V_in, s => s.V_in
  | .I_in, s => s.I_in
  | .W_in, s => s.W_in
  | .V_out, s => s.V_out
  | .I_out, s => s.I_out
  | .W_out, s => s.W_out
  | .T i, s => s.T.get i
  | .fan i, s => s.fan.get i

/-- The assignment `*value = v` through a float pointer. -/
def FloatRef.set : FloatRef → ℚ → PMBus → PMBus
  | .V_in, v, s => { s with V_in := v }
  | .I_in, v, s => { s with I_in := v }
  | .W_in, v, s => { s with W_in := v }
  | .V_out, v, s => { s with V_out := v }
  | .I_out, v, s => { s with I_out := v }
  | .W_out, v, s => { s with W_out := v }
  | .T i, v, s => { s with T := s.T.set i v }
  | .fan i, v, s => { s with fan := s.fan.set i v }

/-- `PMBus::read_linear` (pmbus.cpp 426-437). -/
def read_linear (dev : Device) (reg : Nat) (value : FloatRef) (min_f max_f : ℚ)
    (s : PMBus) : PMBus :=
  let r := read_word dev reg s
  let tmp_f := linear2float r.1
  if tmp_f ≥ min_f ∧ tmp_f ≤ max_f then value.set tmp_f r.2 else r.2

/-- The assignment `*status_byte[i] = v`.  The constructor fills the pointer
table for `i` in 0..7 only (pmbus.cpp 40-48); the entries 8 and 9 are never
initialised. -/
def status_byte_set (i : Nat) (v : Nat) (s : PMBus) : Option PMBus :=
  match i with
  | 0 => some { s with status_vout := v }
  | 1 => some { s with status_iout := v }
  | 2 => some { s with status_input := v }
  | 3 => some { s with status_temperature := v }
  | 4 => some { s with status_cml := v }
  | 5 => some { s with status_other := v }
  | 6 => some { s with status_mfr_specific := v }
  | 7 => some { s with status_fans := v }
  | _ => none

/-- The value `*status_byte[i]` for `i` in 0..7. -/
def status_byte_get (i : Nat) (s : PMBus) : Nat :=
  match i with
  | 0 => s.status_vout
  | 1 => s.status_iout
  | 2 => s.status_input
  | 3 => s.status_temperature
  | 4 => s.status_cml
  | 5 => s.status_other
  | 6 => s.status_mfr_specific
  | 7 => s.status_fans
  | _ => 0

/-- The element `status_reg[i]`. -/
def status_reg_at (i : Nat) (s : PMBus) : Nat := s.status_reg.toList.getD i 0

/-- `PMBus::PMBus` (pmbus.cpp 25-56) with the member initialisers of pmbus.h.
`vout_scale` has no initialiser and the constructor does not assign it: its
first value is whatever the storage holds, the argument `vout_scale0`. -/
def construct (vout_scale0 : ℚ) : PMBus where
  mfr_id := Mathlib.Vector.replicate 8 0
  mfr_model := Mathlib.Vector.replicate 24 0
  mfr_revision := Mathlib.Vector.replicate 4 0
  mfr_location := Mathlib.Vector.replicate 8 0
  mfr_date := Mathlib.Vector.replicate 8 0
  mfr_serial := Mathlib.Vector.replicate 16 0
  V_in := 240
  I_in := 0
  V_out := 0
  I_out := 0
  T := ⟨[0, 0, 0], rfl⟩
  fan := ⟨[0, 0], rfl⟩
  W_in := 0
  W_out := 0
  pmbus_revision := 0
  vout_mode := 0
  status_u8 := 0
  status_vout := 0
  status_iout := 0
  status_input := 0
  status_temperature := 0
  status_cml := 0
  status_other := 0
  status_mfr_specific := 0
  status_fans := 0
  status_word := 0
  vout_command := 0
  total_power_on := 0
  fans := 2
  temperatures := 3
  PSON_do := 2
  I2C_enable_do := 25
  output_direction := 0
  status_reg := ⟨[0x7a, 0x7b, 0x7c, 0x7d, 0x7e, 0x7f, 0x80, 0x81, 0, 0], rfl⟩
  vout_scale := vout_scale0
  pmbus_address := 0x58
  Debug := false
  last_scan := 0
  rx := []
  trace := []

/-- `PMBus::clear_faults` (pmbus.cpp 312-331). -/
def clear_faults (s : PMBus) : PMBus :=
  let s1 := emit (.endTransmission true)
    (emit (.write 0x03) (emit (.beginTransmission s.pmbus_address) s))
  { s1 with
    status_u8 := 0
    status_word := 0
    status_vout := 0
    status_iout := 0
    status_input := 0
    status_temperature := 0
    status_cml := 0
    status_other := 0
    status_mfr_specific := 0
    status_fans := 0 }

/-- `strncmp(a, b, n)` on byte strings; a read past the end of a list reads
the terminating NUL. -/
def strncmp : List Nat → List Nat → Nat → Int
  | _, _, 0 => 0
  | a, b, n + 1 =>
    if a.headD 0 ≠ b.headD 0 then (a.headD 0 : Int) - (b.headD 0 : Int)
    else if a.headD 0 = 0 then 0
    else strncmp a.tail b.tail n

/-- The loop of check_model over the four bytes read at 0xe5
(pmbus.cpp 183-187): `total_power_on <<= 8; total_power_on |= buffer[i];`
on a `uint32_t`. -/
def power_on_step (buffer : Mathlib.Vector Nat 4) (i : Nat) (s : PMBus) : Option PMBus :=
  if h : i < 4 then
    some { s with
      total_power_on := (s.total_power_on * 256 % 4294967296) ||| buffer.get ⟨i, h⟩ }
  else none

/-- The model-specific part of `PMBus::check_model` (pmbus.cpp 161-192). -/
def model_setup (dev : Device) (s : PMBus) : Option PMBus :=
  if strncmp (s.mfr_model.toList.drop 1) DPS750TB1 9 = 0 then
    let s1 := { s with
      status_reg := (s.status_reg.set 5 0).set 6 0
      temperatures := 2
      fans := 1 }
    if s1.pmbus_revision = 0 then some { s1 with vout_scale := 1 / 512 } else some s1
  else if strncmp (s.mfr_model.toList.drop 1) D1U86T 20 = 0 then
    match read_block dev 0xe5 4 (Mathlib.Vector.replicate 4 0) s with
    | none => none
    | some p => forLoop (power_on_step p.1) 0 4 (delay 1 p.2)
  else some { s with status_reg := s.status_reg.set 7 0 }

/-- The reads that open `PMBus::check_model` (pmbus.cpp 152-157). -/
def model_read (dev : Device) (s : PMBus) : Option PMBus :=
  match read_string dev 0x9a 23 s.mfr_model s with
  | none => none
  | some r1 =>
    let s1 := delay 1 { r1.2.2 with mfr_model := r1.2.1 }
    match read_string dev 0x9b 3 s1.mfr_revision s1 with
    | none => none
    | some r2 =>
      let s2 := delay 1 { r2.2.2 with mfr_revision := r2.2.1 }
      let r3 := read_byte dev 0x98 s2
      let s3 := delay 1 { r3.2 with pmbus_revision := r3.1 }
      let r4 := read_byte dev 0x20 s3
      let s4 := delay 1 { r4.2 with vout_mode := r4.1 }
      let r5 := read_word dev 0x21 s4
      some (delay 1 { r5.2 with vout_command := r5.1 })

/-- `PMBus::check_model` (pmbus.cpp 150-197). -/
def check_model (dev : Device) (s : PMBus) : Option PMBus :=
  match model_read dev s with
  | none => none
  | some s1 => model_setup dev s1

/-- `PMBus::standby` (pmbus.cpp 203-208). -/
def standby (s : PMBus) : PMBus :=
  emit (.digitalWrite s.PSON_do (Int.xor 1 s.output_direction)) s

/-- `PMBus::on` (pmbus.cpp 214-219); `on` is a keyword of Lean. -/
def on_ (s : PMBus) : PMBus :=
  emit (.digitalWrite s.PSON_do (Int.xor 0 s.output_direction)) s

/-- One iteration of the status loop of scan (pmbus.cpp 255-263). -/
def status_step (dev : Device) (i : Nat) (s : PMBus) : Option PMBus :=
  if status_reg_at i s ≠ 0 then
    let r := read_byte dev (status_reg_at i s) (delay 1 s)
    status_byte_set i r.1 r.2
  else some s

/-- The output-voltage read of scan (pmbus.cpp 273-285). -/
def read_vout (dev : Device) (s : PMBus) : PMBus :=
  if s.vout_scale ≠ 0 then
    let r := read_word dev 0x8b s
    let tmp_f := s.vout_scale * (r.1 : ℚ)
    if tmp_f < 16 then { r.2 with V_out := tmp_f } else r.2
  else read_linear dev 0x8b .V_out 0 9999 s

/-- One iteration of the temperature loop of scan (pmbus.cpp 291-294);
`&T[i]` is a pointer into an array of 3. -/
def temperature_step (dev : Device) (i : Nat) (s : PMBus) : Option PMBus :=
  if h : i < 3 then some (read_linear dev (0x8d + i) (.T ⟨i, h⟩) (-10) 100 (delay 1 s))
  else none

/-- One iteration of the fan loop of scan (pmbus.cpp 298-301);
`&fan[i]` is a pointer into an array of 2. -/
def fan_step (dev : Device) (i : Nat) (s : PMBus) : Option PMBus :=
  if h : i < 2 then some (read_linear dev (0x90 + i) (.fan ⟨i, h⟩) 0 3000 (delay 1 s))
  else none

/-- The status part of scan (pmbus.cpp 252-263). -/
def scan_status (dev : Device) (s : PMBus) : Option PMBus :=
  let r1 := read_word dev 0x78 s
  let s1 := delay 1 { r1.2 with status_u8 := r1.1 % 256 }
  let r2 := read_word dev 0x79 s1
  forLoop (status_step dev) 0 10 { r2.2 with status_word := r2.1 }

/-- The telemetry part of scan (pmbus.cpp 267-301). -/
def scan_telemetry (dev : Device) (s : PMBus) : Option PMBus :=
  let s1 := read_linear dev 0x88 .V_in 90 264 (delay 1 s)
  let s2 := read_linear dev 0x89 .I_in 0 16 (delay 1 s1)
  let s3 := read_linear dev 0x97 .W_in 0 750 (delay 1 s2)
  let s4 := read_vout dev (delay 1 s3)
  let s5 := read_linear dev 0x8c .I_out 0 70 (delay 1 s4)
  let s6 := read_linear dev 0x96 .W_out 0 750 (delay 1 s5)
  match forLoop (temperature_step dev) 0 s6.temperatures s6 with
  | none => none
  | some s7 => forLoop (fan_step dev) 0 s7.fans s7

/-- What scan does once a scan is due (pmbus.cpp 241-305). -/
def scan_body (dev : Device) (msecs : Nat) (s : PMBus) : Option PMBus :=
  let s0 := { s with last_scan := msecs }
  match (if s0.mfr_model.get 0 = 0 then check_model dev s0 else some s0) with
  | none => none
  | some s1 =>
    match scan_status dev s1 with
    | none => none
    | some s2 => scan_telemetry dev s2

/-- `PMBus::scan` (pmbus.cpp 225-306); `millis` is what `millis()` returns,
and the subtraction is the one of `uint32_t`. -/
def scan (dev : Device) (millis : Nat) (s : PMBus) : Option (Int × PMBus) :=
  let msecs := millis % 4294967296
  if (msecs + 4294967296 - s.last_scan % 4294967296) % 4294967296 < 1000 then some (0, s)
  else
    match scan_body dev msecs s with
    | none => none
    | some s1 => some (1, s1)

/-- The identity reads of init (pmbus.cpp 99-102). -/
def init_strings (dev : Device) (s : PMBus) : Option PMBus :=
  match read_string dev 0x99 7 s.mfr_id s with
  | none => none
  | some r1 =>
    let s1 := delay 1 { r1.2.2 with mfr_id := r1.2.1 }
    match read_string dev 0x9c 7 s1.mfr_location s1 with
    | none => none
    | some r2 =>
      let s2 := delay 1 { r2.2.2 with mfr_location := r2.2.1 }
      match read_string dev 0x9d 7 s2.mfr_date s2 with
      | none => none
      | some r3 =>
        let s3 := delay 1 { r3.2.2 with mfr_date := r3.2.1 }
        match read_string dev 0x9e 15 s3.mfr_serial s3 with
        | none => none
        | some r4 => some (delay 1 { r4.2.2 with mfr_serial := r4.2.1 })

/-- The configuration and the control lines of init (pmbus.cpp 76-95);
`OUTPUT` is 1. -/
def init_lines (pson i2c_enable direction : Int) (address : Nat) (Debug_Serial : Bool)
    (s : PMBus) : PMBus :=
  let s1 := { s with
    pmbus_address := address % 256
    PSON_do := toShort pson
    I2C_enable_do := toShort i2c_enable
    output_direction := toShort direction
    Debug := Debug_Serial }
  let s2 := emit (.pinMode s1.I2C_enable_do 1) (emit (.pinMode s1.PSON_do 1) s1)
  let s3 := emit (.digitalWrite s2.I2C_enable_do (Int.xor 0 s2.output_direction)) s2
  let s4 := emit (.digitalWrite s3.PSON_do (Int.xor 0 s3.output_direction)) s3
  delay 500 s4

/-- `PMBus::init` (pmbus.cpp 62-144); it returns 0. -/
def init (dev : Device) (pson i2c_enable direction : Int) (address : Nat)
    (Debug_Serial : Bool) (s : PMBus) : Option (Int × PMBus) :=
  match init_strings dev (init_lines pson i2c_enable direction address Debug_Serial s) with
  | none => none
  | some s1 =>
    match check_model dev s1 with
    | none => none
    | some s2 => some (0, clear_faults s2)

/-- The register selected last in a trace: the byte of its last `write`. -/
def selected (tr : List Event) : Nat :=
  tr.foldl (fun r e => match e with
    | .write b => b
    | _ => r) 0

/-- A device with fixed register contents: a read request is answered with
the contents `mem reg` of the register selected last, whatever happened
before. -/
def regDevice (mem : Nat → List Nat) : Device := fun tr => mem (selected tr)

/-- The state `s1` differs from `s` at most in the bookkeeping of the bus:
the receive buffer was replaced and events were appended to the trace. -/
def sameDriver (s s1 : PMBus) : Prop :=
  ∃ rx evs, s1 = { s with rx := rx, trace := s.trace ++ evs }

/-- The identity fields: the six strings and the three registers that
check_model reads with them. -/
def identity (s : PMBus) :=
  (s.mfr_id, s.mfr_model, s.mfr_revision, s.mfr_location, s.mfr_date, s.mfr_serial,
    s.pmbus_revision, s.vout_mode, s.vout_command)

/-- The telemetry fields. -/
def telemetry (s : PMBus) :=
  (s.V_in, s.I_in, s.W_in, s.V_out, s.I_out, s.W_out, s.T, s.fan)

/-- The ten status fields: the two aggregates, then the eight categories. -/
def status (s : PMBus) :=
  (s.status_u8, s.status_word, s.status_vout, s.status_iout, s.status_input,
    s.status_temperature, s.status_cml, s.status_other, s.status_mfr_specific, s.status_fans)

/-- The model profile: active status registers, sensor counts, decode mode
of the output voltage and the model-specific counter. -/
def profile (s : PMBus) :=
  (s.status_reg, s.temperatures, s.fans, s.vout_scale, s.total_power_on)

/-- The configuration that init stores. -/
def config (s : PMBus) :=
  (s.PSON_do, s.I2C_enable_do, s.output_direction, s.pmbus_address, s.Debug)

/-- A range-gated write: the new value when it is inside the inclusive
bounds, the previous value otherwise. -/
def gate (v min_f max_f previous : ℚ) : ℚ :=
  if min_f ≤ v ∧ v ≤ max_f then v else previous

/-- The characters of the model buffer once check_model has read it: the
buffer without its length byte. -/
def model_bytes (dev : Device) (s : PMBus) : Option (List Nat) :=
  (model_read dev s).map (fun s1 => s1.mfr_model.toList.drop 1)

/-- What check_model may do to the model profile: an entry of the
status-register table is kept or zeroed, the sensor counts are kept or set
to 2 and 1, the scale of the output voltage is kept or set to 1/512. -/
def profile_step (s s1 : PMBus) : Prop :=
  (∀ i, status_reg_at i s1 = 0 ∨ status_reg_at i s1 = status_reg_at i s)
  ∧ (s1.temperatures = 2 ∨ s1.temperatures = s.temperatures)
  ∧ (s1.fans = 1 ∨ s1.fans = s.fans)
  ∧ (s1.vout_scale = 1 / 512 ∨ s1.vout_scale = s.vout_scale)

/-- The revision byte in the state once check_model has read it from 0x98. -/
def model_revision (dev : Device) (s : PMBus) : Option Nat :=
  (model_read dev s).map (fun s1 => s1.pmbus_revision)

/-- The four bytes that check_model would store in its local `buffer` by the
block read at 0xe5 after it has read the identity registers. -/
def power_on_bytes (dev : Device) (s : PMBus) : Option (Mathlib.Vector Nat 4) :=
  match model_read dev s with
  | none => none
  | some s1 => (read_block dev 0xe5 4 (Mathlib.Vector.replicate 4 0) s1).map (fun p => p.1)

/-- The device answers every word read of a register with the 16-bit word
`w` holds for it, and every byte read with the low byte of that word,
whenever it is asked. -/
def reads (dev : Device) (w : Nat → Nat) : Prop :=
  ∀ reg s, (read_word dev reg s).1 = w (reg % 256) % 65536
    ∧ (read_byte dev reg s).1 = w (reg % 256) % 256

/-- A device with fixed register contents, the 16-bit word `w reg` in the
register `reg`, delivered low byte first. -/
def wordDevice (w : Nat → Nat) : Device :=
  regDevice (fun reg => [w reg % 256, w reg / 256 % 256])

/-- The loops of scan stay inside the arrays they index: the two spare
entries of the status-register table are inactive, and the sensor counts are
at most the lengths of `T` and `fan`. -/
def wellFormed (s : PMBus) : Prop :=
  status_reg_at 8 s = 0 ∧ status_reg_at 9 s = 0 ∧ s.temperatures ≤ 3 ∧ s.fans ≤ 2

/-- The state `s1` differs from `s` at most in the telemetry fields and in
the bookkeeping of the bus, and its trace extends the trace of `s`. -/
def telemetryOnly (s s1 : PMBus) : Prop :=
  identity s1 = identity s ∧ status s1 = status s ∧ profile s1 = profile s
  ∧ config s1 = config s ∧ s1.last_scan = s.last_scan ∧ ∃ evs, s1.trace = s.trace ++ evs

/-- What a completed scan leaves in the status and telemetry fields of `s1`,
when it started in `s` and every register `reg` held the word `w reg`: the
two aggregates, a status byte for every active entry of the table, and
every telemetry field gated by its range.  The table, the scale of the
output voltage and the sensor counts are the ones in force during the scan,
which are those of `s1`. -/
def scanned (w : Nat → Nat) (s s1 : PMBus) : Prop :=
  s1.status_u8 = w 0x78 % 256 ∧ s1.status_word = w 0x79 % 65536
  ∧ (∀ j, j < 8 → status_reg_at j s1 ≠ 0 →
      status_byte_get j s1 = w (status_reg_at j s1 % 256) % 256)
  ∧ s1.V_in = gate (linear2float (w 0x88)) 90 264 s.V_in
  ∧ s1.I_in = gate (linear2float (w 0x89)) 0 16 s.I_in
  ∧ s1.W_in = gate (linear2float (w 0x97)) 0 750 s.W_in
  ∧ s1.V_out
    = (if s1.vout_scale ≠ 0 then
        (if s1.vout_scale * ((w 0x8b % 65536 : Nat) : ℚ) < 16
          then s1.vout_scale * ((w 0x8b % 65536 : Nat) : ℚ) else s.V_out)
      else gate (linear2float (w 0x8b)) 0 9999 s.V_out)
  ∧ s1.I_out = gate (linear2float (w 0x8c)) 0 70 s.I_out
  ∧ s1.W_out = gate (linear2float (w 0x96)) 0 750 s.W_out
  ∧ (∀ j : Fin 3, j.val < s1.temperatures →
      s1.T.get j = gate (linear2float (w (0x8d + j.val))) (-10) 100 (s.T.get j))
  ∧ (∀ j : Fin 2, j.val < s1.fans →
      s1.fan.get j = gate (linear2float (w (0x90 + j.val))) 0 3000 (s.fan.get j))

/-- The time elapsed from the clock reading `last` to the clock reading
`now` on a clock that wraps around at 2^32 ms: `(now - last) mod 2^32`. -/
def elapsed (now last : Nat) : Int := ((now : Int) - (last : Int)) % 4294967296

/-- One call of a public member function of the driver, with whatever the
device answers during the call, taking the state `s` to the state `s1`. -/
inductive Step : PMBus → PMBus → Prop
  | init (dev : Device) (pson i2c_enable direction : Int) (address : Nat) (Debug_Serial : Bool)
      {s s1 : PMBus} {r : Int} :
      PMBus.init dev pson i2c_enable direction address Debug_Serial s = some (r, s1) → Step s s1
  | check_model (dev : Device) {s s1 : PMBus} : PMBus.check_model dev s = some s1 → Step s s1
  | scan (dev : Device) (now : Nat) {s s1 : PMBus} {r : Int} :
      PMBus.scan dev now s = some (r, s1) → Step s s1
  | clear_faults (s : PMBus) : Step s (PMBus.clear_faults s)
  | on_ (s : PMBus) : Step s (PMBus.on_ s)
  | standby (s : PMBus) : Step s (PMBus.standby s)

/-- The states that the driver can be in: the one the constructor leaves,
whatever the storage of `vout_scale` held, and those that a call of a public
member function leads to from a state it can be in. -/
inductive Reachable : PMBus → Prop
  | construct (v : ℚ) : Reachable (PMBus.construct v)
  | step {s s1 : PMBus} : Reachable s → Step s s1 → Reachable s1

/-- Any sequence of calls of scan and clear_faults, with whatever the device
answers, taking the state `s` to the state `s2`. -/
inductive Polls : PMBus → PMBus → Prop
  | done (s : PMBus) : Polls s s
  | scan (dev : Device) (now : Nat) {s s1 s2 : PMBus} {r : Int} :
      PMBus.scan dev now s = some (r, s1) → Polls s1 s2 → Polls s s2
  | clear_faults {s s2 : PMBus} : Polls (PMBus.clear_faults s) s2 → Polls s s2

/-- The shape of the model profile that the constructor establishes and
check_model keeps: an entry of the status-register table is its register
address or 0, the two spare entries are 0, and the sensor counts are 3 or 2
temperatures and 2 or 1 fans. -/
def profileOK (s : PMBus) : Prop :=
  (∀ i, i < 8 → status_reg_at i s = 0 ∨ status_reg_at i s = 0x7a + i)
  ∧ status_reg_at 8 s = 0 ∧ status_reg_at 9 s = 0
  ∧ (s.temperatures = 2 ∨ s.temperatures = 3) ∧ (s.fans = 1 ∨ s.fans = 2)

/-- The device holds the 16-bit word `w reg` in its register `reg`: a read
request that follows the address phase `beginTransmission; write(reg);
endTransmission(false)` is answered with the low byte of `w reg`, then its
high byte, and possibly more bytes after them, whatever happened on the bus
before. -/
def answers (dev : Device) (w : Nat → Nat) : Prop :=
  ∀ (tr : List Event) (a reg q : Nat) (b : Bool), ∃ rest,
    dev (tr ++ [.beginTransmission a, .write reg, .endTransmission false, .requestFrom a q b])
      = (w reg % 256) :: (w reg / 256 % 256) :: rest

/-! ## Theorems -/

theorem linear_y_eq (w : Nat) : linear_y w = twosComplementBits w 0 11 := by
  unfold linear_y twosComplementBits signExtend
  norm_num
  split <;> omega

theorem linear_n_eq (w : Nat) : linear_n w = twosComplementBits w 11 5 := by
  unfold linear_n twosComplementBits signExtend
  norm_num
  split <;> omega

theorem linear_y_word (y n : Int) (hy : -1024 ≤ y ∧ y ≤ 1023) :
    linear_y (linear11_word y n) = y := by
  unfold linear_y linear11_word signExtend
  norm_num
  split <;> omega

theorem linear_n_word (y n : Int) (hn : -16 ≤ n ∧ n ≤ 15) :
    linear_n (linear11_word y n) = n := by
  unfold linear_n linear11_word signExtend
  norm_num
  split <;> omega

theorem vector_set_get {α : Type} {n : Nat} (v : Mathlib.Vector α n) (i : Fin n) :
    v.set i (v.get i) = v := by
  apply Mathlib.Vector.ext
  intro m
  rw [Mathlib.Vector.get_set_eq_if]
  split
  · subst_vars; rfl
  · rfl

theorem FloatRef.get_set (r : FloatRef) (v : ℚ) (s : PMBus) : r.get (r.set v s) = v := by
  cases r <;> simp [FloatRef.get, FloatRef.set]

theorem FloatRef.set_get (r : FloatRef) (s : PMBus) : r.set (r.get s) s = s := by
  cases r <;> simp [FloatRef.get, FloatRef.set, vector_set_get]

theorem FloatRef.get_set_ne (r q : FloatRef) (h : q ≠ r) (v : ℚ) (s : PMBus) :
    q.get (r.set v s) = q.get s := by
  cases r <;> cases q <;> simp_all [FloatRef.get, FloatRef.set]
  · rw [Mathlib.Vector.get_set_of_ne]; exact fun e => h e.symm
  · rw [Mathlib.Vector.get_set_of_ne]; exact fun e => h e.symm

/-- C1: for every word `w`, `linear2float w` is `y * 2^n` where `y` is bits
0..10 of `w` read as an 11-bit two's complement integer (between -1024 and
1023) and `n` is bits 11..15 read as a 5-bit two's complement integer
(between -16 and 15); for every `y` in -1024..1023 and `n` in -16..15 the
word `(n mod 32) * 2048 + (y mod 2048)` decodes to `y * 2^n`; mantissa bits
0x400 decode as -1024 and exponent bits 0x1F as -1, whatever the other bits. -/
theorem linear2float_decode (w : Nat) (y n : Int) (hy : -1024 ≤ y ∧ y ≤ 1023)
    (hn : -16 ≤ n ∧ n ≤ 15) :
    linear2float w = (twosComplementBits w 0 11 : ℚ) * (2 : ℚ) ^ twosComplementBits w 11 5
    ∧ (-1024 ≤ twosComplementBits w 0 11 ∧ twosComplementBits w 0 11 ≤ 1023)
    ∧ (-16 ≤ twosComplementBits w 11 5 ∧ twosComplementBits w 11 5 ≤ 15)
    ∧ linear2float (linear11_word y n) = (y : ℚ) * (2 : ℚ) ^ n
    ∧ linear_y (w * 2048 + 0x400) = -1024
    ∧ linear_n (0x1F * 2048 + w % 2048) = -1 := by
  refine ⟨?_, ?_, ?_, ?_, ?_, ?_⟩
  · rw [linear2float, linear_y_eq, linear_n_eq]
  · unfold twosComplementBits; norm_num; omega
  · unfold twosComplementBits; norm_num; omega
  · rw [linear2float, linear_y_word y n hy, linear_n_word y n hn]
  · unfold linear_y signExtend; norm_num; omega
  · unfold linear_n signExtend; norm_num; omega

/-- The instance of `linear2float_decode` at the word 0xF3E6 and at the
extreme mantissa -1024 with exponent -1. -/
theorem linear2float_decode_witness :
    linear2float 0xF3E6 = (twosComplementBits 0xF3E6 0 11 : ℚ) * (2 : ℚ) ^ twosComplementBits 0xF3E6 11 5
    ∧ (-1024 ≤ twosComplementBits 0xF3E6 0 11 ∧ twosComplementBits 0xF3E6 0 11 ≤ 1023)
    ∧ (-16 ≤ twosComplementBits 0xF3E6 11 5 ∧ twosComplementBits 0xF3E6 11 5 ≤ 15)
    ∧ linear2float (linear11_word (-1024) (-1)) = ((-1024 : Int) : ℚ) * (2 : ℚ) ^ (-1 : Int)
    ∧ linear_y (0xF3E6 * 2048 + 0x400) = -1024
    ∧ linear_n (0x1F * 2048 + 0xF3E6 % 2048) = -1 :=
  linear2float_decode 0xF3E6 (-1024) (-1) (by decide) (by decide)

theorem I2C_read_frame (s : PMBus) :
    (I2C_read s).2 = { s with rx := (I2C_read s).2.rx } := by
  cases s
  simp only [I2C_read]
  split <;> simp_all

theorem read_word_frame (dev : Device) (reg : Nat) (s : PMBus) :
    (read_word dev reg s).2
      = { s with rx := (read_word dev reg s).2.rx, trace := (read_word dev reg s).2.trace } := by
  simp only [read_word]
  rw [I2C_read_frame (I2C_read _).2, I2C_read_frame (requestFrom _ _ _ _ _)]
  simp [requestFrom, select, emit]

theorem read_byte_frame (dev : Device) (reg : Nat) (s : PMBus) :
    (read_byte dev reg s).2
      = { s with rx := (read_byte dev reg s).2.rx, trace := (read_byte dev reg s).2.trace } := by
  simp only [read_byte]
  rw [I2C_read_frame (requestFrom _ _ _ _ _)]
  simp [requestFrom, select, emit]

theorem FloatRef.set_rx_trace (r : FloatRef) (v : ℚ) (s : PMBus) :
    (r.set v s).rx = s.rx ∧ (r.set v s).trace = s.trace := by
  cases r <;> simp [FloatRef.set]

/-- C2: after `read_linear(reg, &field, min_f, max_f)` has read the word `w`,
the field is `linear2float w` when `min_f ≤ linear2float w ≤ max_f` (a value
equal to either bound is accepted) and is what it was otherwise; every other
float field is what it was, and the state differs from the one before only
in that field and in the bookkeeping of the bus (receive buffer and trace). -/
theorem read_linear_gate (dev : Device) (reg : Nat) (value : FloatRef) (min_f max_f : ℚ)
    (s : PMBus) :
    (min_f ≤ linear2float (read_word dev reg s).1 ∧ linear2float (read_word dev reg s).1 ≤ max_f →
      value.get (read_linear dev reg value min_f max_f s) = linear2float (read_word dev reg s).1)
    ∧ (¬ (min_f ≤ linear2float (read_word dev reg s).1 ∧
          linear2float (read_word dev reg s).1 ≤ max_f) →
      value.get (read_linear dev reg value min_f max_f s) = value.get s)
    ∧ (min_f ≤ max_f → linear2float (read_word dev reg s).1 = min_f ∨
          linear2float (read_word dev reg s).1 = max_f →
      value.get (read_linear dev reg value min_f max_f s) = linear2float (read_word dev reg s).1)
    ∧ (∀ other : FloatRef, other ≠ value →
        other.get (read_linear dev reg value min_f max_f s) = other.get s)
    ∧ read_linear dev reg value min_f max_f s
        = value.set (value.get (read_linear dev reg value min_f max_f s))
            { s with
              rx := (read_linear dev reg value min_f max_f s).rx
              trace := (read_linear dev reg value min_f max_f s).trace } := by
  have hget : ∀ q : FloatRef, q.get (read_word dev reg s).2 = q.get s := by
    intro q; rw [read_word_frame]; cases q <;> rfl
  by_cases h : min_f ≤ linear2float (read_word dev reg s).1 ∧
      linear2float (read_word dev reg s).1 ≤ max_f
  · have e : read_linear dev reg value min_f max_f s
        = value.set (linear2float (read_word dev reg s).1) (read_word dev reg s).2 := by
      simp only [read_linear, ge_iff_le]; rw [if_pos h]
    refine ⟨fun _ => ?_, fun h' => absurd h h', fun _ _ => ?_, fun q hq => ?_, ?_⟩
    · rw [e, FloatRef.get_set]
    · rw [e, FloatRef.get_set]
    · rw [e, FloatRef.get_set_ne _ _ hq, hget]
    · rw [e, FloatRef.get_set, (FloatRef.set_rx_trace _ _ _).1, (FloatRef.set_rx_trace _ _ _).2]
      rw [← read_word_frame]
  · have e : read_linear dev reg value min_f max_f s = (read_word dev reg s).2 := by
      simp only [read_linear, ge_iff_le]; rw [if_neg h]
    refine ⟨fun h' => absurd h' h, fun _ => ?_, fun hmm hb => ?_, fun q _ => ?_, ?_⟩
    · rw [e, hget]
    · exfalso; apply h
      rcases hb with hb | hb <;> rw [hb]
      · exact ⟨le_refl _, hmm⟩
      · exact ⟨hmm, le_refl _⟩
    · rw [e, hget]
    · rw [e, hget, ← read_word_frame, ← hget value, FloatRef.set_get]

theorem sameDriver_refl (s : PMBus) : sameDriver s s :=
  ⟨s.rx, [], by cases s; simp⟩

theorem sameDriver_trans {a b c : PMBus} (h1 : sameDriver a b) (h2 : sameDriver b c) :
    sameDriver a c := by
  obtain ⟨rx1, e1, rfl⟩ := h1
  obtain ⟨rx2, e2, rfl⟩ := h2
  exact ⟨rx2, e1 ++ e2, by simp [List.append_assoc]⟩

theorem sameDriver_emit (e : Event) (s : PMBus) : sameDriver s (emit e s) :=
  ⟨s.rx, [e], by cases s; rfl⟩

theorem sameDriver_delay (ms : Nat) (s : PMBus) : sameDriver s (delay ms s) :=
  sameDriver_emit _ s

theorem sameDriver_select (reg : Nat) (s : PMBus) : sameDriver s (select reg s) :=
  sameDriver_trans (sameDriver_trans (sameDriver_emit _ _) (sameDriver_emit _ _))
    (sameDriver_emit _ _)

theorem sameDriver_requestFrom (dev : Device) (a q : Nat) (b : Bool) (s : PMBus) :
    sameDriver s (requestFrom dev a q b s) :=
  ⟨_, [.requestFrom a q b], rfl⟩

theorem sameDriver_I2C_read (s : PMBus) : sameDriver s (I2C_read s).2 := by
  refine ⟨(I2C_read s).2.rx, [], ?_⟩
  cases s
  simp only [I2C_read]
  split <;> simp_all

theorem sameDriver_read_byte (dev : Device) (reg : Nat) (s : PMBus) :
    sameDriver s (read_byte dev reg s).2 :=
  sameDriver_trans (sameDriver_trans (sameDriver_select _ _) (sameDriver_requestFrom _ _ _ _ _))
    (sameDriver_I2C_read _)

theorem sameDriver_read_word (dev : Device) (reg : Nat) (s : PMBus) :
    sameDriver s (read_word dev reg s).2 :=
  sameDriver_trans (sameDriver_trans (sameDriver_trans (sameDriver_select _ _)
    (sameDriver_requestFrom _ _ _ _ _)) (sameDriver_I2C_read _)) (sameDriver_I2C_read _)


theorem read_block_loop {n : Nat} (k : Nat) :
    ∀ (i : Nat) (buf : Mathlib.Vector Nat n) (s : PMBus), i + k ≤ n →
    ∃ buf1 s1,
      forLoop (fun i (p : Mathlib.Vector Nat n × PMBus) =>
          match poke p.1 i (u8 (I2C_read p.2).1) with
          | none => none
          | some b => some (b, (I2C_read p.2).2)) i k (buf, s) = some (buf1, s1)
      ∧ sameDriver s s1
      ∧ ∀ j : Fin n, (j.val < i ∨ i + k ≤ j.val) → buf1.get j = buf.get j := by
  induction k with
  | zero =>
    intro i buf s _
    exact ⟨buf, s, rfl, sameDriver_refl s, fun _ _ => rfl⟩
  | succ k ih =>
    intro i buf s h
    have hi : i < n := by omega
    obtain ⟨buf1, s1, e, hs, hb⟩ :=
      ih (i + 1) (buf.set ⟨i, hi⟩ (u8 (I2C_read s).1)) (I2C_read s).2 (by omega)
    refine ⟨buf1, s1, ?_, sameDriver_trans (sameDriver_I2C_read s) hs, ?_⟩
    · simp only [forLoop, poke, hi, dite_true]
      exact e
    · intro j hj
      rw [hb j (by omega), Mathlib.Vector.get_set_of_ne]
      intro e'
      have : i = j.val := congrArg Fin.val e'
      omega

theorem read_block_spec {n : Nat} (dev : Device) (reg bytes : Nat) (buffer : Mathlib.Vector Nat n)
    (s : PMBus) (h : bytes ≤ n) :
    ∃ buf1 s1, read_block dev reg bytes buffer s = some (buf1, s1)
      ∧ sameDriver s s1
      ∧ ∀ j : Fin n, bytes ≤ j.val → buf1.get j = buffer.get j := by
  obtain ⟨buf1, s1, e, hs, hb⟩ := read_block_loop bytes 0 buffer
    (requestFrom dev (select reg s).pmbus_address (bytes % 256) true (select reg s)) (by omega)
  refine ⟨buf1, s1, e, ?_, fun j hj => hb j (Or.inr (by omega))⟩
  exact sameDriver_trans (sameDriver_trans (sameDriver_select _ _)
    (sameDriver_requestFrom _ _ _ _ _)) hs

theorem read_string_spec {n : Nat} (dev : Device) (reg bytes : Nat)
    (buffer : Mathlib.Vector Nat n) (s : PMBus) (h : bytes ≤ n + 1) :
    ∃ buf1 s1, read_string dev reg bytes buffer s = some ((read_byte dev reg s).1, buf1, s1)
      ∧ sameDriver s s1
      ∧ (∀ j : Fin n, (read_byte dev reg s).1 ≤ j.val ∨ bytes ≤ j.val + 1 →
          buf1.get j = buffer.get j)
      ∧ ((read_byte dev reg s).1 = 0 ∨ bytes ≤ (read_byte dev reg s).1 → buf1 = buffer) := by
  by_cases hl : (read_byte dev reg s).1 ≠ 0 ∧ (read_byte dev reg s).1 < bytes
  · obtain ⟨buf1, s1, e, hs, hb⟩ := read_block_spec dev reg (read_byte dev reg s).1 buffer
      (read_byte dev reg s).2 (by omega)
    refine ⟨buf1, s1, ?_, sameDriver_trans (sameDriver_read_byte _ _ _) hs, ?_, ?_⟩
    · simp only [read_string]
      rw [if_pos hl, e]
    · intro j hj
      exact hb j (by omega)
    · intro h0
      omega
  · refine ⟨buffer, (read_byte dev reg s).2, ?_, sameDriver_read_byte _ _ _, fun _ _ => rfl,
      fun _ => rfl⟩
    simp only [read_string]
    rw [if_neg hl]

theorem read_byte_lt (dev : Device) (reg : Nat) (s : PMBus) : (read_byte dev reg s).1 < 256 := by
  simp only [read_byte, u8]
  omega

/-- C8: for a buffer of capacity `C` read with the limit `C - 1`, as init and
check_model do, and whatever length byte `L` (below 256) the device reports:
read_string returns `L` without an out-of-bounds write; it changes no index
at or above `C - 1`, so the final byte keeps its value (NUL stays NUL), and
no index at or above `L`; and when `L = 0` or `L ≥ C - 1`, in particular
when `L ≥ C`, the buffer is exactly what it was. -/
theorem read_string_in_bounds {C : Nat} (dev : Device) (reg : Nat)
    (buffer : Mathlib.Vector Nat C) (s : PMBus) :
    (read_byte dev reg s).1 < 256
    ∧ ∃ buf1 s1,
      read_string dev reg (C - 1) buffer s = some ((read_byte dev reg s).1, buf1, s1)
      ∧ (∀ j : Fin C, C - 1 ≤ j.val → buf1.get j = buffer.get j)
      ∧ (∀ j : Fin C, (read_byte dev reg s).1 ≤ j.val → buf1.get j = buffer.get j)
      ∧ ((read_byte dev reg s).1 = 0 ∨ C - 1 ≤ (read_byte dev reg s).1 → buf1 = buffer)
      ∧ (C ≤ (read_byte dev reg s).1 → buf1 = buffer) := by
  obtain ⟨buf1, s1, e, _, hb, h0⟩ := read_string_spec dev reg (C - 1) buffer s (by omega)
  exact ⟨read_byte_lt dev reg s, buf1, s1, e, fun j hj => hb j (Or.inr (by omega)),
    fun j hj => hb j (Or.inl hj), h0, fun hC => h0 (Or.inr (by omega))⟩

/-- C7: whatever the state before, after clear_faults the two aggregate
status fields and the eight status category bytes are all zero; the trace
grows by exactly one transmission to the device address carrying the single
byte 0x03; and the identity, telemetry, profile and configuration fields,
the time of the last scan and the receive buffer are what they were. -/
theorem clear_faults_zeroes (s : PMBus) :
    status (clear_faults s) = (0, 0, 0, 0, 0, 0, 0, 0, 0, 0)
    ∧ (clear_faults s).trace
        = s.trace ++ [.beginTransmission s.pmbus_address, .write 0x03, .endTransmission true]
    ∧ identity (clear_faults s) = identity s
    ∧ telemetry (clear_faults s) = telemetry s
    ∧ profile (clear_faults s) = profile s
    ∧ config (clear_faults s) = config s
    ∧ (clear_faults s).last_scan = s.last_scan
    ∧ (clear_faults s).rx = s.rx := by
  cases s
  simp [clear_faults, emit, status, identity, telemetry, profile, config]

/-- C9, evaluated where it fails: the device answers a block read of register
0x99 with the length byte 3 and the three data bytes 0x41 0x42 0x43.
read_string returns 3, and the buffer of capacity 8 then holds 3, 0x41, 0x42
and, at index 3, the zero it held before: the third data byte is never
stored, because read_block requests 3 bytes in all, the length byte included. -/
theorem read_string_drops_last_byte :
    (read_string (regDevice (fun _ => [3, 0x41, 0x42, 0x43])) 0x99 7 (construct 0).mfr_id
        (construct 0)).map (fun r => (r.1, r.2.1.toList))
      = some (3, [3, 0x41, 0x42, 0, 0, 0, 0, 0]) := by
  decide

/-- C10, evaluated where it fails: the device answers a block read of
register 0x9A with the length byte 9 and the nine characters `DPS750TB1`.
On a fresh driver check_model stores only `DPS750TB` (the ninth character is
never read), the comparison with `DPS750TB1` fails, and the profile chosen is
the one of an unknown model: the entries 5 and 6 of the status-register
table stay 0x7f and 0x80, the entry 7 is zeroed, and the driver keeps 3
temperatures and 2 fans. -/
theorem check_model_exact_model_string :
    (check_model (regDevice (fun reg => if reg = 0x9a then 9 :: DPS750TB1 else [])) (construct 0)).map
        (fun s => (s.mfr_model.toList.take 11, s.status_reg.toList, s.temperatures, s.fans))
      = some ([9, 68, 80, 83, 55, 53, 48, 84, 66, 0, 0],
          [0x7a, 0x7b, 0x7c, 0x7d, 0x7e, 0x7f, 0x80, 0, 0, 0], 3, 2) := by
  decide

theorem sameDriver_groups {s s1 : PMBus} (h : sameDriver s s1) :
    identity s1 = identity s ∧ telemetry s1 = telemetry s ∧ status s1 = status s
    ∧ profile s1 = profile s ∧ config s1 = config s ∧ s1.last_scan = s.last_scan := by
  obtain ⟨rx, evs, rfl⟩ := h
  exact ⟨rfl, rfl, rfl, rfl, rfl, rfl⟩

theorem sameDriver_trace {s s1 : PMBus} (h : sameDriver s s1) :
    ∃ evs, s1.trace = s.trace ++ evs := by
  obtain ⟨rx, evs, rfl⟩ := h
  exact ⟨evs, rfl⟩

theorem trace_append_trans {a b c : List Event} (h1 : ∃ evs, b = a ++ evs)
    (h2 : ∃ evs, c = b ++ evs) : ∃ evs, c = a ++ evs := by
  obtain ⟨e1, rfl⟩ := h1
  obtain ⟨e2, rfl⟩ := h2
  exact ⟨e1 ++ e2, by rw [List.append_assoc]⟩

theorem status_reg_at_set (s : PMBus) (i : Fin 10) (x j : Nat) :
    (s.status_reg.set i x).toList.getD j 0 = if j = i.val then x else status_reg_at j s := by
  have hl : s.status_reg.toList.length = 10 := s.status_reg.toList_length
  rw [Mathlib.Vector.toList_set, status_reg_at, List.getD_eq_getElem?_getD,
    List.getD_eq_getElem?_getD, List.getElem?_set]
  by_cases h : j = i.val
  · subst h
    simp [hl]
  · have h' : ¬ i.val = j := fun e => h e.symm
    simp [h, h']

theorem strncmp_eq_zero_iff (lit : List Nat) (h0 : ∀ x ∈ lit, x ≠ 0) :
    ∀ cs : List Nat, strncmp cs lit lit.length = 0 ↔ lit <+: cs := by
  induction lit with
  | nil => intro cs; simp [strncmp]
  | cons x l ih =>
    intro cs
    have hx : x ≠ 0 := h0 x (List.mem_cons_self _ _)
    have ih' := ih (fun y hy => h0 y (List.mem_cons_of_mem _ hy))
    cases cs with
    | nil =>
      simp only [List.length_cons, strncmp, List.headD_nil, List.headD_cons]
      rw [if_pos (fun e => hx e.symm)]
      simp
      omega
    | cons c cs =>
      simp only [List.length_cons, strncmp, List.headD_cons, List.tail_cons]
      by_cases hc : c = x
      · subst hc
        simp [hx, ih' cs, List.cons_prefix_cons]
      · rw [if_pos hc]
        simp [List.cons_prefix_cons, hc]
        omega

theorem read_byte_ex (dev : Device) (reg : Nat) (s : PMBus) :
    ∃ v t, read_byte dev reg s = (v, t) ∧ sameDriver s t :=
  ⟨(read_byte dev reg s).1, (read_byte dev reg s).2, rfl, sameDriver_read_byte dev reg s⟩

theorem read_word_ex (dev : Device) (reg : Nat) (s : PMBus) :
    ∃ v t, read_word dev reg s = (v, t) ∧ sameDriver s t :=
  ⟨(read_word dev reg s).1, (read_word dev reg s).2, rfl, sameDriver_read_word dev reg s⟩

theorem model_read_spec (dev : Device) (s : PMBus) :
    ∃ s1, model_read dev s = some s1
      ∧ telemetry s1 = telemetry s ∧ status s1 = status s ∧ profile s1 = profile s
      ∧ config s1 = config s ∧ s1.last_scan = s.last_scan
      ∧ ∃ evs, s1.trace = s.trace ++ evs := by
  obtain ⟨b1, t1, e1, h1, -, -⟩ := read_string_spec dev 0x9a 23 s.mfr_model s (by omega)
  obtain ⟨b2, t2, e2, h2, -, -⟩ := read_string_spec dev 0x9b 3
    (delay 1 { t1 with mfr_model := b1 }).mfr_revision (delay 1 { t1 with mfr_model := b1 })
    (by omega)
  obtain ⟨v3, t3, e3, h3⟩ := read_byte_ex dev 0x98 (delay 1 { t2 with mfr_revision := b2 })
  obtain ⟨v4, t4, e4, h4⟩ := read_byte_ex dev 0x20 (delay 1 { t3 with pmbus_revision := v3 })
  obtain ⟨v5, t5, e5, h5⟩ := read_word_ex dev 0x21 (delay 1 { t4 with vout_mode := v4 })
  simp only [model_read, e1, e2, e3, e4, e5]
  refine ⟨_, rfl, ?_⟩
  obtain ⟨rx1, ev1, rfl⟩ := h1
  obtain ⟨rx2, ev2, rfl⟩ := h2
  obtain ⟨rx3, ev3, rfl⟩ := h3
  obtain ⟨rx4, ev4, rfl⟩ := h4
  obtain ⟨rx5, ev5, rfl⟩ := h5
  simp only [delay, emit, telemetry, status, profile, config, List.append_assoc, true_and]
  exact ⟨_, rfl⟩

theorem power_on_loop (buffer : Mathlib.Vector Nat 4) (s : PMBus) :
    forLoop (power_on_step buffer) 0 4 s
      = some { s with total_power_on :=
          ((((((((s.total_power_on * 256 % 4294967296) ||| buffer.get 0) * 256 % 4294967296)
            ||| buffer.get 1) * 256 % 4294967296) ||| buffer.get 2) * 256 % 4294967296)
            ||| buffer.get 3) } := by
  simp [forLoop, power_on_step]

theorem model_setup_dps (dev : Device) (s : PMBus)
    (hd : strncmp (s.mfr_model.toList.drop 1) DPS750TB1 9 = 0) :
    model_setup dev s = some { s with
      status_reg := (s.status_reg.set 5 0).set 6 0
      temperatures := 2
      fans := 1
      vout_scale := if s.pmbus_revision = 0 then 1 / 512 else s.vout_scale } := by
  by_cases hr : s.pmbus_revision = 0
  · simp only [model_setup, hd, hr, if_true]
  · simp only [model_setup, hd, hr, if_true, if_false]

theorem model_setup_other (dev : Device) (s : PMBus)
    (hd : strncmp (s.mfr_model.toList.drop 1) DPS750TB1 9 ≠ 0)
    (hm : strncmp (s.mfr_model.toList.drop 1) D1U86T 20 ≠ 0) :
    model_setup dev s = some { s with status_reg := s.status_reg.set 7 0 } := by
  simp only [model_setup, hd, hm, if_false]

theorem model_setup_murata (dev : Device) (s : PMBus)
    (hd : strncmp (s.mfr_model.toList.drop 1) DPS750TB1 9 ≠ 0)
    (hm : strncmp (s.mfr_model.toList.drop 1) D1U86T 20 = 0) :
    ∃ (b : Mathlib.Vector Nat 4) (t : PMBus),
      read_block dev 0xe5 4 (Mathlib.Vector.replicate 4 0) s = some (b, t) ∧ sameDriver s t
      ∧ model_setup dev s = some { delay 1 t with total_power_on :=
          ((((((((t.total_power_on * 256 % 4294967296) ||| b.get 0) * 256 % 4294967296)
            ||| b.get 1) * 256 % 4294967296) ||| b.get 2) * 256 % 4294967296)
            ||| b.get 3) } := by
  obtain ⟨b, t, e, h, -⟩ := read_block_spec dev 0xe5 4 (Mathlib.Vector.replicate 4 0) s
    (le_refl 4)
  refine ⟨b, t, e, h, ?_⟩
  simp only [model_setup, hd, hm, if_true, if_false, e, power_on_loop]
  rfl

theorem model_setup_spec (dev : Device) (s : PMBus) :
    ∃ s1, model_setup dev s = some s1
      ∧ identity s1 = identity s ∧ telemetry s1 = telemetry s ∧ status s1 = status s
      ∧ config s1 = config s ∧ s1.last_scan = s.last_scan
      ∧ (∃ evs, s1.trace = s.trace ++ evs) ∧ profile_step s s1 := by
  by_cases hd : strncmp (s.mfr_model.toList.drop 1) DPS750TB1 9 = 0
  · refine ⟨_, model_setup_dps dev s hd, rfl, rfl, rfl, rfl, rfl,
      ⟨[], (List.append_nil _).symm⟩, ?_, Or.inl rfl, Or.inl rfl, ?_⟩
    · intro i
      show ((s.status_reg.set 5 0).set 6 0).toList.getD i 0 = 0 ∨
        ((s.status_reg.set 5 0).set 6 0).toList.getD i 0 = status_reg_at i s
      have k := status_reg_at_set { s with status_reg := s.status_reg.set 5 0 } 6 0 i
      have k5 := status_reg_at_set s 5 0 i
      simp only [status_reg_at] at k k5 ⊢
      rw [k, k5]
      split
      · exact Or.inl rfl
      · split
        · exact Or.inl rfl
        · exact Or.inr rfl
    · show (if s.pmbus_revision = 0 then (1 : ℚ) / 512 else s.vout_scale) = 1 / 512 ∨ _
      split
      · exact Or.inl rfl
      · exact Or.inr rfl
  · by_cases hm : strncmp (s.mfr_model.toList.drop 1) D1U86T 20 = 0
    · obtain ⟨b, t, e, h, em⟩ := model_setup_murata dev s hd hm
      refine ⟨_, em, ?_⟩
      obtain ⟨rx, evs, rfl⟩ := h
      simp only [delay, emit, identity, telemetry, status, config, profile_step, status_reg_at,
        List.append_assoc, true_and, or_true, implies_true]
      exact ⟨⟨_, rfl⟩, trivial⟩
    · refine ⟨_, model_setup_other dev s hd hm, rfl, rfl, rfl, rfl, rfl,
        ⟨[], (List.append_nil _).symm⟩, ?_, Or.inr rfl, Or.inr rfl, Or.inr rfl⟩
      intro i
      show (s.status_reg.set 7 0).toList.getD i 0 = 0 ∨
        (s.status_reg.set 7 0).toList.getD i 0 = status_reg_at i s
      rw [status_reg_at_set s 7 0 i]
      split
      · exact Or.inl rfl
      · exact Or.inr rfl

theorem check_model_spec (dev : Device) (s : PMBus) :
    ∃ s1, check_model dev s = some s1
      ∧ telemetry s1 = telemetry s ∧ status s1 = status s
      ∧ config s1 = config s ∧ s1.last_scan = s.last_scan
      ∧ (∃ evs, s1.trace = s.trace ++ evs) ∧ profile_step s s1 := by
  obtain ⟨s1, e1, ht, hs, hp, hc, hl, htr⟩ := model_read_spec dev s
  obtain ⟨s2, e2, -, ht2, hs2, hc2, hl2, htr2, hp2⟩ := model_setup_spec dev s1
  refine ⟨s2, ?_, ht2.trans ht, hs2.trans hs, hc2.trans hc, hl2.trans hl,
    trace_append_trans htr htr2, ?_⟩
  · simp only [check_model, e1, e2]
  · have hp' : s1.status_reg = s.status_reg ∧ s1.temperatures = s.temperatures
        ∧ s1.fans = s.fans ∧ s1.vout_scale = s.vout_scale := by
      simp only [profile, Prod.mk.injEq] at hp
      exact ⟨hp.1, hp.2.1, hp.2.2.1, hp.2.2.2.1⟩
    simp only [profile_step, status_reg_at] at hp2 ⊢
    rw [← hp'.1, ← hp'.2.1, ← hp'.2.2.1, ← hp'.2.2.2]
    exact hp2

theorem or_byte (x b : Nat) (hb : b < 256) :
    (x * 256 % 4294967296) ||| b = x * 256 % 4294967296 + b := by
  have e : x * 256 % 4294967296 = 2 ^ 8 * (x % 16777216) := by omega
  rw [e]
  exact (Nat.mul_add_lt_is_or (by omega) _).symm

theorem read_block_loop_lt {n : Nat} (k : Nat) :
    ∀ (i : Nat) (buf buf1 : Mathlib.Vector Nat n) (s s1 : PMBus),
      forLoop (fun i (p : Mathlib.Vector Nat n × PMBus) =>
          match poke p.1 i (u8 (I2C_read p.2).1) with
          | none => none
          | some b => some (b, (I2C_read p.2).2)) i k (buf, s) = some (buf1, s1) →
      ∀ j : Fin n, (buf.get j < 256 ∨ i ≤ j.val ∧ j.val < i + k) → buf1.get j < 256 := by
  induction k with
  | zero =>
    intro i buf buf1 s s1 h j hj
    simp only [forLoop, Option.some.injEq, Prod.mk.injEq] at h
    rw [← h.1]
    omega
  | succ k ih =>
    intro i buf buf1 s s1 h j hj
    by_cases hi : i < n
    · simp only [forLoop, poke, hi, dite_true] at h
      refine ih _ _ _ _ _ h j ?_
      by_cases e : j = ⟨i, hi⟩
      · left
        rw [e, Mathlib.Vector.get_set_same]
        simp only [u8]
        omega
      · rcases hj with hj | hj
        · left
          rw [Mathlib.Vector.get_set_of_ne (fun e' => e e'.symm)]
          exact hj
        · right
          have : j.val ≠ i := fun e' => e (Fin.ext e')
          omega
    · simp [forLoop, poke, hi] at h

theorem model_setup_dps_ex (dev : Device) (s : PMBus)
    (hd : strncmp (s.mfr_model.toList.drop 1) DPS750TB1 9 = 0) :
    ∃ s1, model_setup dev s = some s1
      ∧ s1.status_reg = (s.status_reg.set 5 0).set 6 0 ∧ s1.temperatures = 2 ∧ s1.fans = 1
      ∧ s1.vout_scale = (if s.pmbus_revision = 0 then 1 / 512 else s.vout_scale)
      ∧ s1.total_power_on = s.total_power_on :=
  ⟨_, model_setup_dps dev s hd, rfl, rfl, rfl, rfl, rfl⟩

theorem model_setup_other_ex (dev : Device) (s : PMBus)
    (hd : strncmp (s.mfr_model.toList.drop 1) DPS750TB1 9 ≠ 0)
    (hm : strncmp (s.mfr_model.toList.drop 1) D1U86T 20 ≠ 0) :
    ∃ s1, model_setup dev s = some s1
      ∧ s1.status_reg = s.status_reg.set 7 0 ∧ s1.temperatures = s.temperatures
      ∧ s1.fans = s.fans ∧ s1.vout_scale = s.vout_scale
      ∧ s1.total_power_on = s.total_power_on :=
  ⟨_, model_setup_other dev s hd hm, rfl, rfl, rfl, rfl, rfl⟩

theorem model_bytes_spec (dev : Device) (s : PMBus) (cs : List Nat)
    (hread : model_bytes dev s = some cs) :
    ∃ s1, model_read dev s = some s1 ∧ s1.mfr_model.toList.drop 1 = cs
      ∧ profile s1 = profile s := by
  obtain ⟨s1, e1, -, -, hp, -⟩ := model_read_spec dev s
  refine ⟨s1, e1, ?_, hp⟩
  simpa [model_bytes, e1] using hread

theorem strncmp_DPS750TB1 (cs : List Nat) : strncmp cs DPS750TB1 9 = 0 ↔ DPS750TB1 <+: cs :=
  strncmp_eq_zero_iff DPS750TB1 (by decide) cs

theorem strncmp_D1U86T (cs : List Nat) : strncmp cs D1U86T 20 = 0 ↔ D1U86T <+: cs :=
  strncmp_eq_zero_iff D1U86T (by decide) cs

/-- C5: when the model buffer, once check_model has read it, holds a length
byte followed by the nine characters `DPS750TB1` (whatever follows them),
check_model returns with the entries 5 ("other") and 6 ("mfr-specific") of
the status-register table zeroed, temperatures 2 and fans 1; every other
entry of the table is what it was, and on a freshly constructed driver the
entry 7 (fans) is still 0x81. -/
theorem check_model_dps750tb1 (dev : Device) (s : PMBus) (cs : List Nat)
    (hread : model_bytes dev s = some cs) (hmodel : DPS750TB1 <+: cs) :
    ∃ s1, check_model dev s = some s1
      ∧ status_reg_at 5 s1 = 0 ∧ status_reg_at 6 s1 = 0
      ∧ s1.temperatures = 2 ∧ s1.fans = 1
      ∧ (∀ i, i ≠ 5 → i ≠ 6 → status_reg_at i s1 = status_reg_at i s)
      ∧ (∀ v, s = construct v → status_reg_at 7 s1 = 0x81) := by
  obtain ⟨s1, e1, hcs, hp⟩ := model_bytes_spec dev s cs hread
  have hd : strncmp (s1.mfr_model.toList.drop 1) DPS750TB1 9 = 0 := by
    rw [hcs]; exact (strncmp_DPS750TB1 cs).2 hmodel
  obtain ⟨s2, e2, hreg, ht, hf, -, -⟩ := model_setup_dps_ex dev s1 hd
  have key : ∀ i, status_reg_at i s2
      = if i = 6 then 0 else if i = 5 then 0 else status_reg_at i s := by
    intro i
    have k := status_reg_at_set { s1 with status_reg := s1.status_reg.set 5 0 } 6 0 i
    have k5 := status_reg_at_set s1 5 0 i
    have hreg1 : s1.status_reg = s.status_reg := by
      simp only [profile, Prod.mk.injEq] at hp
      exact hp.1
    simp only [status_reg_at] at k k5 ⊢
    rw [hreg, k, k5, hreg1]
    rfl
  refine ⟨s2, by simp only [check_model, e1, e2], ?_, ?_, ht, hf, ?_, ?_⟩
  · rw [key]; rfl
  · rw [key]; rfl
  · intro i h5 h6
    rw [key, if_neg h6, if_neg h5]
  · intro v hv
    rw [key, hv]
    rfl

/-- The instance of `check_model_dps750tb1` on a freshly constructed driver
and a device whose model register answers with the length byte 12 and the
characters `DPS750TB1 AB`. -/
theorem check_model_dps750tb1_witness :
    ∃ s1, check_model (regDevice (fun reg => if reg = 0x9a then 12 :: (DPS750TB1 ++ [32, 65, 66])
        else [])) (construct 0) = some s1
      ∧ status_reg_at 5 s1 = 0 ∧ status_reg_at 6 s1 = 0
      ∧ s1.temperatures = 2 ∧ s1.fans = 1
      ∧ (∀ i, i ≠ 5 → i ≠ 6 → status_reg_at i s1 = status_reg_at i (construct 0))
      ∧ (∀ v, construct 0 = construct v → status_reg_at 7 s1 = 0x81) :=
  check_model_dps750tb1 _ (construct 0)
    (DPS750TB1 ++ [32, 65, 0, 0, 0, 0, 0, 0, 0, 0, 0, 0, 0, 0]) (by decide) (by decide)

/-- C6: when the characters of the model buffer after the length byte, once
check_model has read them, begin with neither `DPS750TB1` nor
`D1U86T-W-800-12-HB4C` (the empty string included), check_model returns with
the entry 7 (fans) of the status-register table zeroed and every other
entry, temperatures, fans, vout_scale and total_power_on what they were; on
a freshly constructed driver that is 3 temperatures and 2 fans. -/
theorem check_model_unknown (dev : Device) (s : PMBus) (cs : List Nat)
    (hread : model_bytes dev s = some cs)
    (hdps : ¬ DPS750TB1 <+: cs) (hmurata : ¬ D1U86T <+: cs) :
    ∃ s1, check_model dev s = some s1
      ∧ status_reg_at 7 s1 = 0
      ∧ (∀ i, i ≠ 7 → status_reg_at i s1 = status_reg_at i s)
      ∧ s1.temperatures = s.temperatures ∧ s1.fans = s.fans
      ∧ s1.vout_scale = s.vout_scale ∧ s1.total_power_on = s.total_power_on
      ∧ (∀ v, s = construct v → s1.temperatures = 3 ∧ s1.fans = 2) := by
  obtain ⟨s1, e1, hcs, hp⟩ := model_bytes_spec dev s cs hread
  have hd : strncmp (s1.mfr_model.toList.drop 1) DPS750TB1 9 ≠ 0 := by
    rw [hcs]; exact fun h => hdps ((strncmp_DPS750TB1 cs).1 h)
  have hm : strncmp (s1.mfr_model.toList.drop 1) D1U86T 20 ≠ 0 := by
    rw [hcs]; exact fun h => hmurata ((strncmp_D1U86T cs).1 h)
  obtain ⟨s2, e2, hreg, ht, hf, hv, hpo⟩ := model_setup_other_ex dev s1 hd hm
  simp only [profile, Prod.mk.injEq] at hp
  obtain ⟨p1, p2, p3, p4, p5⟩ := hp
  have key : ∀ i, status_reg_at i s2 = if i = 7 then 0 else status_reg_at i s := by
    intro i
    have k := status_reg_at_set s1 7 0 i
    simp only [status_reg_at] at k ⊢
    rw [hreg, k, p1]
    rfl
  refine ⟨s2, by simp only [check_model, e1, e2], ?_, ?_, ht.trans p2, hf.trans p3,
    hv.trans p4, hpo.trans p5, ?_⟩
  · rw [key]; rfl
  · intro i h7
    rw [key, if_neg h7]
  · intro v hv'
    rw [ht, hf, p2, p3, hv']
    exact ⟨rfl, rfl⟩

/-- The instance of `check_model_unknown` on a freshly constructed driver and
a device whose every register reads as zero, so that the model string is
empty. -/
theorem check_model_unknown_witness :
    ∃ s1, check_model (regDevice (fun _ => [0, 0])) (construct 0) = some s1
      ∧ status_reg_at 7 s1 = 0
      ∧ (∀ i, i ≠ 7 → status_reg_at i s1 = status_reg_at i (construct 0))
      ∧ s1.temperatures = (construct 0).temperatures ∧ s1.fans = (construct 0).fans
      ∧ s1.vout_scale = (construct 0).vout_scale
      ∧ s1.total_power_on = (construct 0).total_power_on
      ∧ (∀ v, construct 0 = construct v → s1.temperatures = 3 ∧ s1.fans = 2) :=
  check_model_unknown _ (construct 0) (List.replicate 23 0) (by decide) (by decide) (by decide)

theorem be_bytes (t b0 b1 b2 b3 : Nat) (h0 : b0 < 256) (h1 : b1 < 256) (h2 : b2 < 256)
    (h3 : b3 < 256) :
    ((((((((t * 256 % 4294967296) ||| b0) * 256 % 4294967296) ||| b1) * 256 % 4294967296)
      ||| b2) * 256 % 4294967296) ||| b3)
      = b0 * 2 ^ 24 + b1 * 2 ^ 16 + b2 * 2 ^ 8 + b3 := by
  rw [or_byte t b0 h0, or_byte _ b1 h1, or_byte _ b2 h2, or_byte _ b3 h3]
  omega

theorem read_block_lt {n : Nat} (dev : Device) (reg bytes : Nat)
    (buffer buf1 : Mathlib.Vector Nat n) (s s1 : PMBus)
    (h : read_block dev reg bytes buffer s = some (buf1, s1)) :
    ∀ j : Fin n, j.val < bytes → buf1.get j < 256 :=
  fun j hj => read_block_loop_lt bytes 0 buffer buf1 _ s1 h j (Or.inr ⟨Nat.zero_le _, by omega⟩)

theorem model_setup_murata_ex (dev : Device) (s : PMBus)
    (hd : strncmp (s.mfr_model.toList.drop 1) DPS750TB1 9 ≠ 0)
    (hm : strncmp (s.mfr_model.toList.drop 1) D1U86T 20 = 0) :
    ∃ (b : Mathlib.Vector Nat 4) (t s1 : PMBus),
      read_block dev 0xe5 4 (Mathlib.Vector.replicate 4 0) s = some (b, t)
      ∧ model_setup dev s = some s1
      ∧ s1.total_power_on =
          ((((((((t.total_power_on * 256 % 4294967296) ||| b.get 0) * 256 % 4294967296)
            ||| b.get 1) * 256 % 4294967296) ||| b.get 2) * 256 % 4294967296)
            ||| b.get 3) := by
  obtain ⟨b, t, eb, -, em⟩ := model_setup_murata dev s hd hm
  exact ⟨b, t, _, eb, em, rfl⟩

/-- C16: when the characters of the model buffer, once read, begin with
`D1U86T-W-800-12-HB4C`, and `b0 b1 b2 b3` are the four bytes that the block
read at 0xe5 stores in the local buffer, check_model returns with
`total_power_on = b0 * 2^24 + b1 * 2^16 + b2 * 2^8 + b3`, whatever the
counter held before; the four bytes are below 256, so the value is below
2^32. -/
theorem check_model_total_power_on (dev : Device) (s : PMBus) (cs : List Nat)
    (b0 b1 b2 b3 : Nat)
    (hread : model_bytes dev s = some cs) (hmurata : D1U86T <+: cs)
    (hbytes : power_on_bytes dev s = some ⟨[b0, b1, b2, b3], rfl⟩) :
    ∃ s1, check_model dev s = some s1
      ∧ s1.total_power_on = b0 * 2 ^ 24 + b1 * 2 ^ 16 + b2 * 2 ^ 8 + b3
      ∧ (b0 < 256 ∧ b1 < 256 ∧ b2 < 256 ∧ b3 < 256)
      ∧ s1.total_power_on < 2 ^ 32 := by
  obtain ⟨s1, e1, hcs, -⟩ := model_bytes_spec dev s cs hread
  have hm : strncmp (s1.mfr_model.toList.drop 1) D1U86T 20 = 0 := by
    rw [hcs]; exact (strncmp_D1U86T cs).2 hmurata
  have hd : strncmp (s1.mfr_model.toList.drop 1) DPS750TB1 9 ≠ 0 := by
    rw [hcs]
    intro h
    have h9 := (strncmp_DPS750TB1 cs).1 h
    obtain ⟨r, rfl⟩ := hmurata
    obtain ⟨r', hr'⟩ := h9
    simp [DPS750TB1, D1U86T] at hr'
  obtain ⟨b, t, s2, eb, em, hv⟩ := model_setup_murata_ex dev s1 hd hm
  have hb : b = ⟨[b0, b1, b2, b3], rfl⟩ := by
    simp only [power_on_bytes, e1, eb, Option.map_some', Option.some.injEq] at hbytes
    exact hbytes
  have hlt : ∀ i, b.get i < 256 := fun i => read_block_lt dev 0xe5 4 _ b s1 t eb i i.isLt
  subst hb
  have h0 : b0 < 256 := hlt 0
  have h1 : b1 < 256 := hlt 1
  have h2 : b2 < 256 := hlt 2
  have h3 : b3 < 256 := hlt 3
  have hv' : s2.total_power_on = b0 * 2 ^ 24 + b1 * 2 ^ 16 + b2 * 2 ^ 8 + b3 :=
    hv.trans (be_bytes t.total_power_on b0 b1 b2 b3 h0 h1 h2 h3)
  refine ⟨s2, by simp only [check_model, e1, em], hv', ⟨h0, h1, h2, h3⟩, ?_⟩
  rw [hv']
  omega

/-- The instance of `check_model_total_power_on` on a driver whose counter
holds 0xdeadbeef and a device whose model register answers with the length
byte 21 and `D1U86T-W-800-12-HB4C`, and whose register 0xe5 answers with the
bytes 1, 2, 3, 4. -/
theorem check_model_total_power_on_witness :
    ∃ s1, check_model (regDevice (fun reg => if reg = 0x9a then 21 :: D1U86T
        else if reg = 0xe5 then [1, 2, 3, 4] else []))
        { construct 0 with total_power_on := 0xdeadbeef } = some s1
      ∧ s1.total_power_on = 1 * 2 ^ 24 + 2 * 2 ^ 16 + 3 * 2 ^ 8 + 4
      ∧ (1 < 256 ∧ 2 < 256 ∧ 3 < 256 ∧ 4 < 256)
      ∧ s1.total_power_on < 2 ^ 32 :=
  check_model_total_power_on _ { construct 0 with total_power_on := 0xdeadbeef }
    (D1U86T ++ [0, 0, 0]) 1 2 3 4 (by decide) (by decide) (by decide)

theorem xor_levels_ne (d : Int) : Int.xor 0 d ≠ Int.xor 1 d := by
  intro h
  have h0 := congrArg (fun x => Int.testBit x 0) h
  simp only [Int.testBit_lxor] at h0
  have e0 : Int.testBit 0 0 = false := by decide
  have e1 : Int.testBit 1 0 = true := by decide
  rw [e0, e1] at h0
  cases hb : Int.testBit d 0 <;> simp [hb] at h0

/-- C15: `on` appends to the trace one write of the level `0 XOR direction`
to the power-enable line `PSON_do`, `standby` one write of the level
`1 XOR direction` to the same line, and neither changes anything else: no
other line is written, the bus is not used and every driver field is what it
was.  The two levels differ for every direction; for direction 0 or 1 the
level of `on` is `direction` and the level of `standby` is `1 - direction`,
so that the opposite direction swaps the two levels. -/
theorem on_standby_levels (s : PMBus) :
    on_ s = { s with
      trace := s.trace ++ [.digitalWrite s.PSON_do (Int.xor 0 s.output_direction)] }
    ∧ standby s = { s with
      trace := s.trace ++ [.digitalWrite s.PSON_do (Int.xor 1 s.output_direction)] }
    ∧ Int.xor 0 s.output_direction ≠ Int.xor 1 s.output_direction
    ∧ (∀ d : Int, d = 0 ∨ d = 1 →
        Int.xor 0 d = d ∧ Int.xor 1 d = 1 - d
        ∧ Int.xor 0 (1 - d) = Int.xor 1 d ∧ Int.xor 1 (1 - d) = Int.xor 0 d) := by
  refine ⟨rfl, rfl, xor_levels_ne _, ?_⟩
  intro d hd
  rcases hd with rfl | rfl <;> decide

theorem init_strings_spec (dev : Device) (s : PMBus) :
    ∃ s1, init_strings dev s = some s1
      ∧ telemetry s1 = telemetry s ∧ status s1 = status s ∧ profile s1 = profile s
      ∧ config s1 = config s ∧ s1.last_scan = s.last_scan
      ∧ ∃ evs, s1.trace = s.trace ++ evs := by
  obtain ⟨b1, t1, e1, h1, -, -⟩ := read_string_spec dev 0x99 7 s.mfr_id s (by omega)
  obtain ⟨b2, t2, e2, h2, -, -⟩ := read_string_spec dev 0x9c 7
    (delay 1 { t1 with mfr_id := b1 }).mfr_location (delay 1 { t1 with mfr_id := b1 })
    (by omega)
  obtain ⟨b3, t3, e3, h3, -, -⟩ := read_string_spec dev 0x9d 7
    (delay 1 { t2 with mfr_location := b2 }).mfr_date (delay 1 { t2 with mfr_location := b2 })
    (by omega)
  obtain ⟨b4, t4, e4, h4, -, -⟩ := read_string_spec dev 0x9e 15
    (delay 1 { t3 with mfr_date := b3 }).mfr_serial (delay 1 { t3 with mfr_date := b3 })
    (by omega)
  simp only [init_strings, e1, e2, e3, e4]
  refine ⟨_, rfl, ?_⟩
  obtain ⟨rx1, ev1, rfl⟩ := h1
  obtain ⟨rx2, ev2, rfl⟩ := h2
  obtain ⟨rx3, ev3, rfl⟩ := h3
  obtain ⟨rx4, ev4, rfl⟩ := h4
  simp only [delay, emit, telemetry, status, profile, config, List.append_assoc, true_and]
  exact ⟨_, rfl⟩

theorem clear_faults_groups (s : PMBus) :
    status (clear_faults s) = (0, 0, 0, 0, 0, 0, 0, 0, 0, 0)
    ∧ (clear_faults s).trace
        = s.trace ++ [.beginTransmission s.pmbus_address, .write 0x03, .endTransmission true]
    ∧ identity (clear_faults s) = identity s
    ∧ telemetry (clear_faults s) = telemetry s
    ∧ profile (clear_faults s) = profile s
    ∧ config (clear_faults s) = config s
    ∧ (clear_faults s).last_scan = s.last_scan := by
  cases s
  simp [clear_faults, emit, status, identity, telemetry, profile, config]

theorem profile_step_congr {a a1 b b1 : PMBus} (ha : profile a1 = profile a)
    (hb : profile b1 = profile b) (h : profile_step a b) : profile_step a1 b1 := by
  simp only [profile, Prod.mk.injEq] at ha hb
  simp only [profile_step, status_reg_at] at h ⊢
  rw [ha.1, ha.2.1, ha.2.2.1, ha.2.2.2.1, hb.1, hb.2.1, hb.2.2.1, hb.2.2.2.1]
  exact h

theorem profile_step_refl (s : PMBus) : profile_step s s :=
  ⟨fun _ => Or.inr rfl, Or.inr rfl, Or.inr rfl, Or.inr rfl⟩

theorem profile_step_trans {a b c : PMBus} (h1 : profile_step a b) (h2 : profile_step b c) :
    profile_step a c := by
  obtain ⟨r1, t1, f1, v1⟩ := h1
  obtain ⟨r2, t2, f2, v2⟩ := h2
  refine ⟨fun i => ?_, ?_, ?_, ?_⟩
  · rcases r2 i with h | h
    · exact Or.inl h
    · rw [h]; exact r1 i
  · rcases t2 with h | h
    · exact Or.inl h
    · rw [h]; exact t1
  · rcases f2 with h | h
    · exact Or.inl h
    · rw [h]; exact f1
  · rcases v2 with h | h
    · exact Or.inl h
    · rw [h]; exact v1

theorem init_lines_spec (pson i2c_enable direction : Int) (address : Nat)
    (Debug_Serial : Bool) (s : PMBus) :
    (init_lines pson i2c_enable direction address Debug_Serial s).trace
      = s.trace ++ [.pinMode (toShort pson) 1, .pinMode (toShort i2c_enable) 1,
          .digitalWrite (toShort i2c_enable) (Int.xor 0 (toShort direction)),
          .digitalWrite (toShort pson) (Int.xor 0 (toShort direction)), .delay 500]
    ∧ config (init_lines pson i2c_enable direction address Debug_Serial s)
      = (toShort pson, toShort i2c_enable, toShort direction, address % 256, Debug_Serial)
    ∧ telemetry (init_lines pson i2c_enable direction address Debug_Serial s) = telemetry s
    ∧ profile (init_lines pson i2c_enable direction address Debug_Serial s) = profile s
    ∧ (init_lines pson i2c_enable direction address Debug_Serial s).last_scan = s.last_scan := by
  cases s
  simp [init_lines, delay, emit, config, telemetry, profile]

theorem init_spec (dev : Device) (pson i2c_enable direction : Int) (address : Nat)
    (Debug_Serial : Bool) (s : PMBus) :
    ∃ s1 evs, init dev pson i2c_enable direction address Debug_Serial s = some (0, s1)
      ∧ s1.trace = s.trace ++ [.pinMode (toShort pson) 1, .pinMode (toShort i2c_enable) 1,
          .digitalWrite (toShort i2c_enable) (Int.xor 0 (toShort direction)),
          .digitalWrite (toShort pson) (Int.xor 0 (toShort direction)), .delay 500] ++ evs
      ∧ config s1 = (toShort pson, toShort i2c_enable, toShort direction, address % 256,
          Debug_Serial)
      ∧ telemetry s1 = telemetry s ∧ status s1 = (0, 0, 0, 0, 0, 0, 0, 0, 0, 0)
      ∧ s1.last_scan = s.last_scan ∧ profile_step s s1 := by
  obtain ⟨htr0, hc0, ht0, hp0, hl0⟩ := init_lines_spec pson i2c_enable direction address
    Debug_Serial s
  obtain ⟨s1, e1, ht1, -, hp1, hc1, hl1, ev1, htr1⟩ := init_strings_spec dev
    (init_lines pson i2c_enable direction address Debug_Serial s)
  obtain ⟨s2, e2, ht2, -, hc2, hl2, ⟨ev2, htr2⟩, hp2⟩ := check_model_spec dev s1
  obtain ⟨hs3, htr3, -, ht3, hp3, hc3, hl3⟩ := clear_faults_groups s2
  refine ⟨clear_faults s2, ev1 ++ ev2 ++ [.beginTransmission s2.pmbus_address, .write 0x03,
    .endTransmission true], ?_, ?_, ?_, ?_, hs3, ?_, ?_⟩
  · simp only [init, e1, e2]
  · rw [htr3, htr2, htr1, htr0]
    simp only [List.append_assoc]
  · rw [hc3, hc2, hc1, hc0]
  · rw [ht3, ht2, ht1, ht0]
  · rw [hl3, hl2, hl1, hl0]
  · exact profile_step_congr (hp1.trans hp0).symm hp3 hp2

/-- C14, where it fails: a freshly constructed driver initialised with the
power-enable line on pin 2, the bus-enable line on pin 25 and direction 0.
The first five things init does are the two pin modes, the write of level 0
to pin 25, the write of level 0 to pin 2, and the delay of 500 ms.  After
init, standby writes level 1 to pin 2 and `on` writes level 0: init has
driven the power-enable line to the level of `on`, not of standby. -/
theorem init_power_level_counterexample :
    (init (fun _ => []) 2 25 0 0x58 false (construct 0)).map
        (fun r => (r.1, r.2.trace.take 5, (standby r.2).trace.getLast?,
          (on_ r.2).trace.getLast?))
      = some (0,
          [.pinMode 2 1, .pinMode 25 1, .digitalWrite 25 0, .digitalWrite 2 0, .delay 500],
          some (.digitalWrite 2 1), some (.digitalWrite 2 0)) := by
  decide

/-- C14, amended: for every direction and every device, init returns 0, and
the first things it does are: the two pin modes, a write of the level
`0 XOR direction` to the bus-enable line, a write of the level
`0 XOR direction` to the power-enable line, and the delay of 500 ms, before
anything is sent on the bus.  The level written to the power-enable line is
the level that `on` writes after init, and it is not the level that standby
writes. -/
theorem init_drives_on_level (dev : Device) (pson i2c_enable direction : Int) (address : Nat)
    (Debug_Serial : Bool) (s : PMBus) :
    ∃ s1 evs, init dev pson i2c_enable direction address Debug_Serial s = some (0, s1)
      ∧ s1.trace = s.trace ++ [.pinMode (toShort pson) 1, .pinMode (toShort i2c_enable) 1,
          .digitalWrite (toShort i2c_enable) (Int.xor 0 (toShort direction)),
          .digitalWrite (toShort pson) (Int.xor 0 (toShort direction)), .delay 500] ++ evs
      ∧ (on_ s1).trace
          = s1.trace ++ [.digitalWrite (toShort pson) (Int.xor 0 (toShort direction))]
      ∧ (standby s1).trace
          = s1.trace ++ [.digitalWrite (toShort pson) (Int.xor 1 (toShort direction))]
      ∧ Int.xor 0 (toShort direction) ≠ Int.xor 1 (toShort direction) := by
  obtain ⟨s1, evs, e, htr, hc, -⟩ := init_spec dev pson i2c_enable direction address
    Debug_Serial s
  simp only [config, Prod.mk.injEq] at hc
  refine ⟨s1, evs, e, htr, ?_, ?_, xor_levels_ne _⟩
  · simp only [on_, emit, hc.1, hc.2.2.1]
  · simp only [standby, emit, hc.1, hc.2.2.1]

theorem status_byte_get_congr {a b : PMBus} (h : status a = status b) (j : Nat) :
    status_byte_get j a = status_byte_get j b := by
  simp only [status, Prod.mk.injEq] at h
  obtain ⟨-, -, h0, h1, h2, h3, h4, h5, h6, h7⟩ := h
  unfold status_byte_get
  split <;> first | assumption | rfl

theorem status_byte_set_spec (i v : Nat) (s : PMBus) (hi : i < 8) :
    ∃ s1, status_byte_set i v s = some s1
      ∧ identity s1 = identity s ∧ telemetry s1 = telemetry s ∧ profile s1 = profile s
      ∧ config s1 = config s ∧ s1.last_scan = s.last_scan
      ∧ s1.status_u8 = s.status_u8 ∧ s1.status_word = s.status_word
      ∧ s1.trace = s.trace
      ∧ status_byte_get i s1 = v
      ∧ (∀ j, j ≠ i → status_byte_get j s1 = status_byte_get j s) := by
  interval_cases i <;>
  · refine ⟨_, rfl, rfl, rfl, rfl, rfl, rfl, rfl, rfl, rfl, rfl, ?_⟩
    intro j hj
    unfold status_byte_get
    split <;> first | rfl | exact absurd rfl hj

theorem status_step_spec (dev : Device) (i : Nat) (s : PMBus)
    (hi : i < 8 ∨ status_reg_at i s = 0) :
    ∃ s1, status_step dev i s = some s1
      ∧ identity s1 = identity s ∧ telemetry s1 = telemetry s ∧ profile s1 = profile s
      ∧ config s1 = config s ∧ s1.last_scan = s.last_scan
      ∧ s1.status_u8 = s.status_u8 ∧ s1.status_word = s.status_word
      ∧ (∃ evs, s1.trace = s.trace ++ evs)
      ∧ (∀ j, j ≠ i → status_byte_get j s1 = status_byte_get j s)
      ∧ (status_reg_at i s = 0 → status_byte_get i s1 = status_byte_get i s)
      ∧ (status_reg_at i s ≠ 0 →
          status_byte_get i s1 = (read_byte dev (status_reg_at i s) (delay 1 s)).1) := by
  by_cases h0 : status_reg_at i s = 0
  · refine ⟨s, ?_, rfl, rfl, rfl, rfl, rfl, rfl, rfl, ⟨[], (List.append_nil _).symm⟩,
      fun _ _ => rfl, fun _ => rfl, fun h => absurd h0 h⟩
    simp only [status_step, h0, ne_eq, not_true_eq_false, if_false]
  · have hi8 : i < 8 := by
      rcases hi with h | h
      · exact h
      · exact absurd h h0
    have hsd := sameDriver_trans (sameDriver_delay 1 s)
      (sameDriver_read_byte dev (status_reg_at i s) (delay 1 s))
    obtain ⟨s1, e, g1, g2, g3, g4, g5, g6, g7, g8, g9, g10⟩ := status_byte_set_spec i
      (read_byte dev (status_reg_at i s) (delay 1 s)).1
      (read_byte dev (status_reg_at i s) (delay 1 s)).2 hi8
    obtain ⟨k1, k2, k3, k4, k5, k6⟩ := sameDriver_groups hsd
    have k3' := k3
    simp only [status, Prod.mk.injEq] at k3'
    refine ⟨s1, ?_, g1.trans k1, g2.trans k2, g3.trans k4, g4.trans k5, g5.trans k6,
      g6.trans k3'.1, g7.trans k3'.2.1, ?_, ?_, fun h => absurd h h0, fun _ => g9⟩
    · simp only [status_step, h0, ne_eq, not_false_eq_true, if_true]
      exact e
    · rw [g8]
      exact sameDriver_trace hsd
    · intro j hj
      rw [g10 j hj]
      exact status_byte_get_congr k3 j

theorem status_loop (dev : Device) (k : Nat) :
    ∀ (i : Nat) (s : PMBus), i + k = 10 → status_reg_at 8 s = 0 → status_reg_at 9 s = 0 →
    ∃ s1, forLoop (status_step dev) i k s = some s1
      ∧ identity s1 = identity s ∧ telemetry s1 = telemetry s ∧ profile s1 = profile s
      ∧ config s1 = config s ∧ s1.last_scan = s.last_scan
      ∧ s1.status_u8 = s.status_u8 ∧ s1.status_word = s.status_word
      ∧ (∃ evs, s1.trace = s.trace ++ evs)
      ∧ (∀ j, (j < i ∨ status_reg_at j s = 0) → status_byte_get j s1 = status_byte_get j s)
      ∧ (∀ w, reads dev w → ∀ j, i ≤ j → j < 8 → status_reg_at j s ≠ 0 →
          status_byte_get j s1 = w (status_reg_at j s % 256) % 256) := by
  induction k with
  | zero =>
    intro i s _ _ _
    exact ⟨s, rfl, rfl, rfl, rfl, rfl, rfl, rfl, rfl, ⟨[], (List.append_nil _).symm⟩,
      fun _ _ => rfl, fun w _ j h1 h2 => by omega⟩
  | succ k ih =>
    intro i s hik h8 h9
    have hi : i < 8 ∨ status_reg_at i s = 0 := by
      by_cases h : i < 8
      · exact Or.inl h
      · right
        have : i = 8 ∨ i = 9 := by omega
        rcases this with rfl | rfl
        · exact h8
        · exact h9
    obtain ⟨s1, e1, g1, g2, g3, g4, g5, g6, g7, g8, g9, g10, g11⟩ := status_step_spec dev i s hi
    have hreg : ∀ j, status_reg_at j s1 = status_reg_at j s := by
      intro j
      simp only [profile, Prod.mk.injEq] at g3
      simp only [status_reg_at, g3.1]
    obtain ⟨s2, e2, f1, f2, f3, f4, f5, f6, f7, f8, f9, f11⟩ := ih (i + 1) s1 (by omega)
      ((hreg 8).trans h8) ((hreg 9).trans h9)
    refine ⟨s2, ?_, f1.trans g1, f2.trans g2, f3.trans g3, f4.trans g4, f5.trans g5,
      f6.trans g6, f7.trans g7, trace_append_trans g8 f8, ?_, ?_⟩
    · simp only [forLoop, e1]
      exact e2
    · intro j hj
      by_cases hji : j = i
      · subst hji
        have hz : status_reg_at j s = 0 := by
          rcases hj with h | h
          · omega
          · exact h
        rw [f9 j (Or.inl (by omega)), g10 hz]
      · rw [f9 j (by rw [hreg]; omega), g9 j hji]
    · intro w hw j hij hj8 hnz
      by_cases hji : j = i
      · subst hji
        rw [f9 j (Or.inl (by omega)), g11 hnz]
        exact (hw _ _).2
      · rw [f11 w hw j (by omega) hj8 (by rw [hreg]; exact hnz), hreg]

theorem reads_word {dev : Device} {w : Nat → Nat} (h : reads dev w) (reg : Nat)
    (hr : reg < 256) (s : PMBus) : (read_word dev reg s).1 = w reg % 65536 := by
  rw [(h reg s).1, Nat.mod_eq_of_lt hr]

theorem reads_byte {dev : Device} {w : Nat → Nat} (h : reads dev w) (reg : Nat)
    (s : PMBus) : (read_byte dev reg s).1 = w (reg % 256) % 256 :=
  (h reg s).2

theorem scan_status_spec (dev : Device) (s : PMBus)
    (h8 : status_reg_at 8 s = 0) (h9 : status_reg_at 9 s = 0) :
    ∃ s1, scan_status dev s = some s1
      ∧ identity s1 = identity s ∧ telemetry s1 = telemetry s ∧ profile s1 = profile s
      ∧ config s1 = config s ∧ s1.last_scan = s.last_scan
      ∧ (∃ evs, s1.trace = s.trace ++ evs)
      ∧ (∀ j, status_reg_at j s = 0 → status_byte_get j s1 = status_byte_get j s)
      ∧ (∀ w, reads dev w →
          s1.status_u8 = w 0x78 % 256 ∧ s1.status_word = w 0x79 % 65536
          ∧ ∀ j, j < 8 → status_reg_at j s ≠ 0 →
              status_byte_get j s1 = w (status_reg_at j s % 256) % 256) := by
  obtain ⟨v1, t1, e1, h1⟩ := read_word_ex dev 0x78 s
  obtain ⟨v2, t2, e2, h2⟩ := read_word_ex dev 0x79 (delay 1 { t1 with status_u8 := v1 % 256 })
  have hv1 : v1 = (read_word dev 0x78 s).1 := by rw [e1]
  have hv2 : v2 = (read_word dev 0x79 (delay 1 { t1 with status_u8 := v1 % 256 })).1 := by
    rw [e2]
  obtain ⟨rx1, ev1, rfl⟩ := h1
  obtain ⟨rx2, ev2, rfl⟩ := h2
  obtain ⟨s1, e, g1, g2, g3, g4, g5, g6, g7, g8, g9, g11⟩ := status_loop dev 10 0
    { ({ delay 1 { ({ s with rx := rx1, trace := s.trace ++ ev1 } : PMBus) with
          status_u8 := v1 % 256 } with
        rx := rx2
        trace := (delay 1 { ({ s with rx := rx1, trace := s.trace ++ ev1 } : PMBus) with
          status_u8 := v1 % 256 }).trace ++ ev2 } : PMBus) with status_word := v2 }
    rfl h8 h9
  refine ⟨s1, ?_, g1, g2, g3, g4, g5, ?_, ?_, ?_⟩
  · simp only [scan_status, e1, e2]
    exact e
  · obtain ⟨evs, hevs⟩ := g8
    rw [hevs]
    simp only [delay, emit, List.append_assoc]
    exact ⟨_, rfl⟩
  · intro j hj
    exact g9 j (Or.inr hj)
  · intro w hw
    refine ⟨?_, ?_, fun j hj hnz => g11 w hw j (Nat.zero_le _) hj hnz⟩
    · rw [g6]
      show v1 % 256 = _
      rw [hv1, reads_word hw 0x78 (by omega)]
      omega
    · rw [g7]
      show v2 = _
      rw [hv2, reads_word hw 0x79 (by omega)]

theorem telemetryOnly_refl (s : PMBus) : telemetryOnly s s :=
  ⟨rfl, rfl, rfl, rfl, rfl, [], (List.append_nil _).symm⟩

theorem telemetryOnly_trans {a b c : PMBus} (h1 : telemetryOnly a b) (h2 : telemetryOnly b c) :
    telemetryOnly a c :=
  ⟨h2.1.trans h1.1, h2.2.1.trans h1.2.1, h2.2.2.1.trans h1.2.2.1, h2.2.2.2.1.trans h1.2.2.2.1,
    h2.2.2.2.2.1.trans h1.2.2.2.2.1, trace_append_trans h1.2.2.2.2.2 h2.2.2.2.2.2⟩

theorem telemetryOnly_of_sameDriver {s s1 : PMBus} (h : sameDriver s s1) :
    telemetryOnly s s1 := by
  obtain ⟨k1, -, k3, k4, k5, k6⟩ := sameDriver_groups h
  exact ⟨k1, k3, k4, k5, k6, sameDriver_trace h⟩

theorem floatRef_get_of_sameDriver {s s1 : PMBus} (h : sameDriver s s1) (q : FloatRef) :
    q.get s1 = q.get s := by
  obtain ⟨rx, evs, rfl⟩ := h
  cases q <;> rfl

theorem telemetryOnly_set (value : FloatRef) (v : ℚ) (s : PMBus) :
    telemetryOnly s (value.set v s) := by
  cases value <;> exact ⟨rfl, rfl, rfl, rfl, rfl, [], (List.append_nil _).symm⟩

theorem read_linear_ex (dev : Device) (reg : Nat) (value : FloatRef) (min_f max_f : ℚ)
    (s : PMBus) :
    ∃ s1, read_linear dev reg value min_f max_f (delay 1 s) = s1
      ∧ telemetryOnly s s1
      ∧ value.get s1
        = gate (linear2float (read_word dev reg (delay 1 s)).1) min_f max_f (value.get s)
      ∧ ∀ q, q ≠ value → q.get s1 = q.get s := by
  have hsd := sameDriver_trans (sameDriver_delay 1 s) (sameDriver_read_word dev reg (delay 1 s))
  refine ⟨_, rfl, ?_⟩
  by_cases h : min_f ≤ linear2float (read_word dev reg (delay 1 s)).1
      ∧ linear2float (read_word dev reg (delay 1 s)).1 ≤ max_f
  · have e : read_linear dev reg value min_f max_f (delay 1 s)
        = value.set (linear2float (read_word dev reg (delay 1 s)).1)
            (read_word dev reg (delay 1 s)).2 := by
      simp only [read_linear, ge_iff_le]
      rw [if_pos h]
    rw [e]
    refine ⟨telemetryOnly_trans (telemetryOnly_of_sameDriver hsd) (telemetryOnly_set _ _ _),
      ?_, ?_⟩
    · rw [FloatRef.get_set, gate, if_pos h]
    · intro q hq
      rw [FloatRef.get_set_ne _ _ hq, floatRef_get_of_sameDriver hsd]
  · have e : read_linear dev reg value min_f max_f (delay 1 s)
        = (read_word dev reg (delay 1 s)).2 := by
      simp only [read_linear, ge_iff_le]
      rw [if_neg h]
    rw [e]
    refine ⟨telemetryOnly_of_sameDriver hsd, ?_, ?_⟩
    · rw [gate, if_neg h, floatRef_get_of_sameDriver hsd]
    · intro q _
      rw [floatRef_get_of_sameDriver hsd]

theorem read_vout_ex (dev : Device) (s : PMBus) :
    ∃ s1, read_vout dev (delay 1 s) = s1
      ∧ telemetryOnly s s1
      ∧ s1.V_out
        = (if s.vout_scale ≠ 0 then
            (if s.vout_scale * ((read_word dev 0x8b (delay 1 s)).1 : ℚ) < 16
              then s.vout_scale * ((read_word dev 0x8b (delay 1 s)).1 : ℚ) else s.V_out)
          else gate (linear2float (read_word dev 0x8b (delay 1 s)).1) 0 9999 s.V_out)
      ∧ ∀ q, q ≠ FloatRef.V_out → q.get s1 = q.get s := by
  by_cases hs : s.vout_scale = 0
  · obtain ⟨s1, e, g1, g2, g3⟩ := read_linear_ex dev 0x8b .V_out 0 9999 s
    refine ⟨s1, ?_, g1, ?_, g3⟩
    · rw [← e]
      have : (delay 1 s).vout_scale = 0 := hs
      simp only [read_vout, this, ne_eq, not_true_eq_false, if_false]
    · rw [if_neg (fun h => h hs)]
      exact g2
  · have hsd := sameDriver_trans (sameDriver_delay 1 s)
      (sameDriver_read_word dev 0x8b (delay 1 s))
    have hs' : (delay 1 s).vout_scale ≠ 0 := hs
    refine ⟨_, rfl, ?_⟩
    rw [if_pos hs]
    by_cases h : s.vout_scale * ((read_word dev 0x8b (delay 1 s)).1 : ℚ) < 16
    · have e : read_vout dev (delay 1 s)
          = FloatRef.V_out.set (s.vout_scale * ((read_word dev 0x8b (delay 1 s)).1 : ℚ))
              (read_word dev 0x8b (delay 1 s)).2 := by
        have h' : (delay 1 s).vout_scale * ((read_word dev 0x8b (delay 1 s)).1 : ℚ) < 16 := h
        simp only [read_vout, hs', ne_eq, not_false_eq_true, if_true, h']
        rfl
      rw [e, if_pos h]
      refine ⟨telemetryOnly_trans (telemetryOnly_of_sameDriver hsd) (telemetryOnly_set _ _ _),
        rfl, ?_⟩
      intro q hq
      rw [FloatRef.get_set_ne _ _ hq, floatRef_get_of_sameDriver hsd]
    · have e : read_vout dev (delay 1 s) = (read_word dev 0x8b (delay 1 s)).2 := by
        have h' : ¬ (delay 1 s).vout_scale * ((read_word dev 0x8b (delay 1 s)).1 : ℚ) < 16 := h
        simp only [read_vout, hs', ne_eq, not_false_eq_true, if_true, h', if_false]
      rw [e, if_neg h]
      refine ⟨telemetryOnly_of_sameDriver hsd, ?_, ?_⟩
      · exact floatRef_get_of_sameDriver hsd .V_out
      · intro q _
        rw [floatRef_get_of_sameDriver hsd]

theorem linear2float_mod (x : Nat) : linear2float (x % 65536) = linear2float x := by
  have hy : linear_y (x % 65536) = linear_y x := by
    unfold linear_y signExtend
    norm_num
  have hn : linear_n (x % 65536) = linear_n x := by
    unfold linear_n signExtend
    norm_num
    split <;> split <;> omega
  rw [linear2float, hy, hn, linear2float]

theorem temperature_loop (dev : Device) (k : Nat) :
    ∀ (i : Nat) (s : PMBus), i + k ≤ 3 →
    ∃ s1, forLoop (temperature_step dev) i k s = some s1
      ∧ telemetryOnly s s1
      ∧ (∀ q : FloatRef, (∀ j : Fin 3, q = .T j → j.val < i ∨ i + k ≤ j.val) →
          q.get s1 = q.get s)
      ∧ (∀ w, reads dev w → ∀ j : Fin 3, i ≤ j.val → j.val < i + k →
          s1.T.get j = gate (linear2float (w (0x8d + j.val))) (-10) 100 (s.T.get j)) := by
  induction k with
  | zero =>
    intro i s _
    exact ⟨s, rfl, telemetryOnly_refl s, fun _ _ => rfl, fun w _ j h1 h2 => by omega⟩
  | succ k ih =>
    intro i s hik
    have hi : i < 3 := by omega
    obtain ⟨s1, e1, g1, g2, g3⟩ := read_linear_ex dev (0x8d + i) (.T ⟨i, hi⟩) (-10) 100 s
    obtain ⟨s2, e2, f1, f2, f3⟩ := ih (i + 1) s1 (by omega)
    refine ⟨s2, ?_, telemetryOnly_trans g1 f1, ?_, ?_⟩
    · simp only [forLoop, temperature_step, hi, dite_true, e1]
      exact e2
    · intro q hq
      rw [f2 q (fun j hj => by have := hq j hj; omega), g3 q]
      intro hqi
      have := hq ⟨i, hi⟩ hqi
      simp only at this
      omega
    · intro w hw j hij hjk
      by_cases hji : j.val = i
      · have hj : j = ⟨i, hi⟩ := Fin.ext hji
        subst hj
        have := f2 (.T ⟨i, hi⟩) (fun j hj => by
          have : j = ⟨i, hi⟩ := by injection hj with h; exact h.symm
          subst this
          exact Or.inl (Nat.lt_succ_self i))
        simp only [FloatRef.get] at this g2
        rw [this, g2, reads_word hw (0x8d + i) (by omega), linear2float_mod]
      · have := g3 (.T j) (fun h => hji (by injection h with h; rw [h]))
        simp only [FloatRef.get] at this
        rw [f3 w hw j (by omega) (by omega), this]

theorem fan_loop (dev : Device) (k : Nat) :
    ∀ (i : Nat) (s : PMBus), i + k ≤ 2 →
    ∃ s1, forLoop (fan_step dev) i k s = some s1
      ∧ telemetryOnly s s1
      ∧ (∀ q : FloatRef, (∀ j : Fin 2, q = .fan j → j.val < i ∨ i + k ≤ j.val) →
          q.get s1 = q.get s)
      ∧ (∀ w, reads dev w → ∀ j : Fin 2, i ≤ j.val → j.val < i + k →
          s1.fan.get j = gate (linear2float (w (0x90 + j.val))) 0 3000 (s.fan.get j)) := by
  induction k with
  | zero =>
    intro i s _
    exact ⟨s, rfl, telemetryOnly_refl s, fun _ _ => rfl, fun w _ j h1 h2 => by omega⟩
  | succ k ih =>
    intro i s hik
    have hi : i < 2 := by omega
    obtain ⟨s1, e1, g1, g2, g3⟩ := read_linear_ex dev (0x90 + i) (.fan ⟨i, hi⟩) 0 3000 s
    obtain ⟨s2, e2, f1, f2, f3⟩ := ih (i + 1) s1 (by omega)
    refine ⟨s2, ?_, telemetryOnly_trans g1 f1, ?_, ?_⟩
    · simp only [forLoop, fan_step, hi, dite_true, e1]
      exact e2
    · intro q hq
      rw [f2 q (fun j hj => by have := hq j hj; omega), g3 q]
      intro hqi
      have := hq ⟨i, hi⟩ hqi
      simp only at this
      omega
    · intro w hw j hij hjk
      by_cases hji : j.val = i
      · have hj : j = ⟨i, hi⟩ := Fin.ext hji
        subst hj
        have := f2 (.fan ⟨i, hi⟩) (fun j hj => by
          have : j = ⟨i, hi⟩ := by injection hj with h; exact h.symm
          subst this
          exact Or.inl (Nat.lt_succ_self i))
        simp only [FloatRef.get] at this g2
        rw [this, g2, reads_word hw (0x90 + i) (by omega), linear2float_mod]
      · have := g3 (.fan j) (fun h => hji (by injection h with h; rw [h]))
        simp only [FloatRef.get] at this
        rw [f3 w hw j (by omega) (by omega), this]

theorem scan_telemetry_spec (dev : Device) (s : PMBus)
    (ht : s.temperatures ≤ 3) (hf : s.fans ≤ 2) :
    ∃ s1, scan_telemetry dev s = some s1 ∧ telemetryOnly s s1
      ∧ (∀ j : Fin 3, s.temperatures ≤ j.val → s1.T.get j = s.T.get j)
      ∧ (∀ j : Fin 2, s.fans ≤ j.val → s1.fan.get j = s.fan.get j)
      ∧ (∀ w, reads dev w →
          s1.V_in = gate (linear2float (w 0x88)) 90 264 s.V_in
          ∧ s1.I_in = gate (linear2float (w 0x89)) 0 16 s.I_in
          ∧ s1.W_in = gate (linear2float (w 0x97)) 0 750 s.W_in
          ∧ s1.V_out
            = (if s.vout_scale ≠ 0 then
                (if s.vout_scale * ((w 0x8b % 65536 : Nat) : ℚ) < 16
                  then s.vout_scale * ((w 0x8b % 65536 : Nat) : ℚ) else s.V_out)
              else gate (linear2float (w 0x8b)) 0 9999 s.V_out)
          ∧ s1.I_out = gate (linear2float (w 0x8c)) 0 70 s.I_out
          ∧ s1.W_out = gate (linear2float (w 0x96)) 0 750 s.W_out
          ∧ (∀ j : Fin 3, j.val < s.temperatures →
              s1.T.get j = gate (linear2float (w (0x8d + j.val))) (-10) 100 (s.T.get j))
          ∧ (∀ j : Fin 2, j.val < s.fans →
              s1.fan.get j = gate (linear2float (w (0x90 + j.val))) 0 3000 (s.fan.get j))) := by
  obtain ⟨a1, e1, t1, v1, k1⟩ := read_linear_ex dev 0x88 .V_in 90 264 s
  obtain ⟨a2, e2, t2, v2, k2⟩ := read_linear_ex dev 0x89 .I_in 0 16 a1
  obtain ⟨a3, e3, t3, v3, k3⟩ := read_linear_ex dev 0x97 .W_in 0 750 a2
  obtain ⟨a4, e4, t4, v4, k4⟩ := read_vout_ex dev a3
  obtain ⟨a5, e5, t5, v5, k5⟩ := read_linear_ex dev 0x8c .I_out 0 70 a4
  obtain ⟨a6, e6, t6, v6, k6⟩ := read_linear_ex dev 0x96 .W_out 0 750 a5
  have t06 : telemetryOnly s a6 :=
    telemetryOnly_trans (telemetryOnly_trans (telemetryOnly_trans (telemetryOnly_trans
      (telemetryOnly_trans t1 t2) t3) t4) t5) t6
  have hp6 : a6.temperatures = s.temperatures ∧ a6.fans = s.fans := by
    have := t06.2.2.1
    simp only [profile, Prod.mk.injEq] at this
    exact ⟨this.2.1, this.2.2.1⟩
  have hs3 : a3.vout_scale = s.vout_scale := by
    have := (telemetryOnly_trans (telemetryOnly_trans t1 t2) t3).2.2.1
    simp only [profile, Prod.mk.injEq] at this
    exact this.2.2.2.1
  obtain ⟨a7, e7, t7, k7, v7⟩ := temperature_loop dev a6.temperatures 0 a6 (by omega)
  have hp7 : a7.fans = s.fans := by
    have := t7.2.2.1
    simp only [profile, Prod.mk.injEq] at this
    rw [this.2.2.1, hp6.2]
  obtain ⟨a8, e8, t8, k8, v8⟩ := fan_loop dev a7.fans 0 a7 (by omega)
  have keep78 : ∀ q : FloatRef, (∀ j : Fin 3, q ≠ .T j) → (∀ j : Fin 2, q ≠ .fan j) →
      q.get a8 = q.get a6 := by
    intro q hT hF
    rw [k8 q (fun j h => absurd h (hF j)), k7 q (fun j h => absurd h (hT j))]
  have keepT : ∀ j : Fin 3, a8.T.get j = a7.T.get j ∧ a6.T.get j = s.T.get j := by
    intro j
    have h8 := k8 (.T j) (fun i h => FloatRef.noConfusion h)
    have h6 := k6 (.T j) (fun h => FloatRef.noConfusion h)
    have h5 := k5 (.T j) (fun h => FloatRef.noConfusion h)
    have h4 := k4 (.T j) (fun h => FloatRef.noConfusion h)
    have h3 := k3 (.T j) (fun h => FloatRef.noConfusion h)
    have h2 := k2 (.T j) (fun h => FloatRef.noConfusion h)
    have h1 := k1 (.T j) (fun h => FloatRef.noConfusion h)
    simp only [FloatRef.get] at h8 h6 h5 h4 h3 h2 h1
    exact ⟨h8, by rw [h6, h5, h4, h3, h2, h1]⟩
  have keepF : ∀ j : Fin 2, a7.fan.get j = s.fan.get j := by
    intro j
    have h7 := k7 (.fan j) (fun i h => FloatRef.noConfusion h)
    have h6 := k6 (.fan j) (fun h => FloatRef.noConfusion h)
    have h5 := k5 (.fan j) (fun h => FloatRef.noConfusion h)
    have h4 := k4 (.fan j) (fun h => FloatRef.noConfusion h)
    have h3 := k3 (.fan j) (fun h => FloatRef.noConfusion h)
    have h2 := k2 (.fan j) (fun h => FloatRef.noConfusion h)
    have h1 := k1 (.fan j) (fun h => FloatRef.noConfusion h)
    simp only [FloatRef.get] at h7 h6 h5 h4 h3 h2 h1
    rw [h7, h6, h5, h4, h3, h2, h1]
  refine ⟨a8, ?_, telemetryOnly_trans (telemetryOnly_trans t06 t7) t8, ?_, ?_, ?_⟩
  · subst e1 e2 e3 e4 e5 e6
    unfold scan_telemetry
    dsimp only
    rw [e7]
    exact e8
  · intro j hj
    have h7 := k7 (.T j) (fun i h => by
      have : i = j := by injection h with h; exact h.symm
      subst this
      right
      rw [hp6.1]
      omega)
    simp only [FloatRef.get] at h7
    rw [(keepT j).1, h7, (keepT j).2]
  · intro j hj
    have h8 := k8 (.fan j) (fun i h => by
      have : i = j := by injection h with h; exact h.symm
      subst this
      right
      rw [hp7]
      omega)
    simp only [FloatRef.get] at h8
    rw [h8, keepF j]
  · intro w hw
    refine ⟨?_, ?_, ?_, ?_, ?_, ?_, ?_, ?_⟩
    · have h := keep78 .V_in (fun j h => FloatRef.noConfusion h) (fun j h => FloatRef.noConfusion h)
      rw [k6 .V_in (by decide), k5 .V_in (by decide), k4 .V_in (by decide), k3 .V_in (by decide),
        k2 .V_in (by decide), v1, reads_word hw 0x88 (by omega), linear2float_mod] at h
      exact h
    · have h := keep78 .I_in (fun j h => FloatRef.noConfusion h) (fun j h => FloatRef.noConfusion h)
      rw [k6 .I_in (by decide), k5 .I_in (by decide), k4 .I_in (by decide), k3 .I_in (by decide),
        v2, k1 .I_in (by decide), reads_word hw 0x89 (by omega), linear2float_mod] at h
      exact h
    · have h := keep78 .W_in (fun j h => FloatRef.noConfusion h) (fun j h => FloatRef.noConfusion h)
      rw [k6 .W_in (by decide), k5 .W_in (by decide), k4 .W_in (by decide), v3,
        k2 .W_in (by decide), k1 .W_in (by decide), reads_word hw 0x97 (by omega),
        linear2float_mod] at h
      exact h
    · have h := keep78 .V_out (fun j h => FloatRef.noConfusion h) (fun j h => FloatRef.noConfusion h)
      have h3 := k3 .V_out (by decide)
      have h2 := k2 .V_out (by decide)
      have h1 := k1 .V_out (by decide)
      rw [k6 .V_out (by decide), k5 .V_out (by decide)] at h
      simp only [FloatRef.get] at h h3 h2 h1
      rw [h, v4, hs3, reads_word hw 0x8b (by omega), linear2float_mod, h3, h2, h1]
    · have h := keep78 .I_out (fun j h => FloatRef.noConfusion h) (fun j h => FloatRef.noConfusion h)
      rw [k6 .I_out (by decide), v5, k4 .I_out (by decide), k3 .I_out (by decide),
        k2 .I_out (by decide), k1 .I_out (by decide), reads_word hw 0x8c (by omega),
        linear2float_mod] at h
      exact h
    · have h := keep78 .W_out (fun j h => FloatRef.noConfusion h) (fun j h => FloatRef.noConfusion h)
      rw [v6, k5 .W_out (by decide), k4 .W_out (by decide), k3 .W_out (by decide),
        k2 .W_out (by decide), k1 .W_out (by decide), reads_word hw 0x96 (by omega),
        linear2float_mod] at h
      exact h
    · intro j hj
      rw [(keepT j).1, v7 w hw j (Nat.zero_le _) (by rw [hp6.1]; omega), (keepT j).2]
    · intro j hj
      have h8 := v8 w hw j (Nat.zero_le _) (by rw [hp7]; omega)
      rw [h8, keepF j]

theorem selected_select (tr : List Event) (a reg q : Nat) (b c : Bool) :
    selected (tr ++ [.beginTransmission a] ++ [.write reg] ++ [.endTransmission b]
      ++ [.requestFrom a q c]) = reg := by
  simp [selected, List.foldl_append]

theorem or_word (lo hi : Nat) (hlo : lo < 256) :
    lo ||| hi * 256 = lo + 256 * hi := by
  have h := Nat.mul_add_lt_is_or (by omega : lo < 2 ^ 8) hi
  rw [Nat.lor_comm, Nat.mul_comm, ← h]
  omega

theorem wordDevice_reads (w : Nat → Nat) : reads (wordDevice w) w := by
  intro reg s
  constructor
  · simp only [read_word, select, requestFrom, emit, wordDevice, regDevice, selected_select,
      List.map_cons, List.map_nil, List.take_succ_cons, List.take_zero, I2C_read, u16]
    have e1 : (((w (reg % 256) % 256 % 256 : Nat) : Int) % 65536).toNat
        = w (reg % 256) % 256 := by omega
    have e2 : (((w (reg % 256) / 256 % 256 % 256 : Nat) : Int) * 256 % 65536).toNat
        = (w (reg % 256) / 256 % 256) * 256 := by omega
    rw [e1, e2, or_word _ _ (Nat.mod_lt _ (by omega))]
    omega
  · simp only [read_byte, select, requestFrom, emit, wordDevice, regDevice, selected_select,
      List.map_cons, List.map_nil, List.take_succ_cons, List.take_zero, I2C_read, u8]
    omega

theorem wellFormed_of_profile_step {s s1 : PMBus} (h : profile_step s s1) (hwf : wellFormed s) :
    wellFormed s1 := by
  obtain ⟨r, t, f, -⟩ := h
  obtain ⟨w8, w9, wt, wf⟩ := hwf
  refine ⟨?_, ?_, ?_, ?_⟩
  · rcases r 8 with h | h
    · exact h
    · rw [h]; exact w8
  · rcases r 9 with h | h
    · exact h
    · rw [h]; exact w9
  · rcases t with h | h <;> omega
  · rcases f with h | h <;> omega

theorem scan_model_spec (dev : Device) (msecs : Nat) (s : PMBus) :
    ∃ s0, (if ({ s with last_scan := msecs } : PMBus).mfr_model.get 0 = 0
        then check_model dev { s with last_scan := msecs }
        else some { s with last_scan := msecs }) = some s0
      ∧ telemetry s0 = telemetry s ∧ status s0 = status s ∧ config s0 = config s
      ∧ s0.last_scan = msecs ∧ (∃ evs, s0.trace = s.trace ++ evs) ∧ profile_step s s0
      ∧ (s.mfr_model.get 0 ≠ 0 → profile s0 = profile s ∧ identity s0 = identity s) := by
  by_cases h : s.mfr_model.get 0 = 0
  · obtain ⟨s0, e, g1, g2, g3, g4, g5, g6⟩ := check_model_spec dev { s with last_scan := msecs }
    refine ⟨s0, ?_, g1, g2, g3, g4, g5, g6, fun h' => absurd h h'⟩
    rw [if_pos h]
    exact e
  · refine ⟨{ s with last_scan := msecs }, ?_, rfl, rfl, rfl, rfl,
      ⟨[], (List.append_nil _).symm⟩, profile_step_refl s, fun _ => ⟨rfl, rfl⟩⟩
    rw [if_neg h]

theorem scan_body_spec (dev : Device) (msecs : Nat) (s : PMBus) (hwf : wellFormed s) :
    ∃ s1, scan_body dev msecs s = some s1
      ∧ s1.last_scan = msecs ∧ config s1 = config s ∧ profile_step s s1 ∧ wellFormed s1
      ∧ (s.mfr_model.get 0 ≠ 0 → profile s1 = profile s ∧ identity s1 = identity s)
      ∧ (∃ evs, s1.trace = s.trace ++ evs)
      ∧ (∀ j, status_reg_at j s1 = 0 → status_byte_get j s1 = status_byte_get j s)
      ∧ (∀ j : Fin 3, s1.temperatures ≤ j.val → s1.T.get j = s.T.get j)
      ∧ (∀ j : Fin 2, s1.fans ≤ j.val → s1.fan.get j = s.fan.get j)
      ∧ (∀ w, reads dev w → scanned w s s1) := by
  obtain ⟨s0, e0, a1, a2, a3, a4, a5, a6, a7⟩ := scan_model_spec dev msecs s
  have hwf0 := wellFormed_of_profile_step a6 hwf
  obtain ⟨s2, e2, b1, b2, b3, b4, b5, b6, b7, b8⟩ := scan_status_spec dev s0 hwf0.1 hwf0.2.1
  have hp2 := b3
  simp only [profile, Prod.mk.injEq] at hp2
  obtain ⟨s3, e3, c1, c2, c3, c4⟩ := scan_telemetry_spec dev s2
    (by rw [hp2.2.1]; exact hwf0.2.2.1) (by rw [hp2.2.2.1]; exact hwf0.2.2.2)
  obtain ⟨d1, d2, d3, d4, d5, d6⟩ := c1
  have hp30 : profile s3 = profile s0 := d3.trans b3
  have hp3 := hp30
  simp only [profile, Prod.mk.injEq] at hp3
  have hreg : ∀ j, status_reg_at j s3 = status_reg_at j s0 := by
    intro j
    simp only [status_reg_at, hp3.1]
  have htel : telemetry s2 = telemetry s := b2.trans a1
  simp only [telemetry, Prod.mk.injEq] at htel
  obtain ⟨q1, q2, q3, q4, q5, q6, q7, q8⟩ := htel
  have hst : ∀ j, status_byte_get j s0 = status_byte_get j s :=
    fun j => status_byte_get_congr a2 j
  have hst3 : ∀ j, status_byte_get j s3 = status_byte_get j s2 :=
    fun j => status_byte_get_congr d2 j
  have hsb := d2
  simp only [status, Prod.mk.injEq] at hsb
  refine ⟨s3, ?_, (d5.trans b5).trans a4, (d4.trans b4).trans a3,
    profile_step_congr rfl hp30 a6, wellFormed_of_profile_step
      (profile_step_congr rfl hp30 a6) hwf,
    fun h => ⟨hp30.trans (a7 h).1, (d1.trans b1).trans (a7 h).2⟩,
    trace_append_trans (trace_append_trans a5 b6) d6, ?_, ?_, ?_, ?_⟩
  · unfold scan_body
    dsimp only
    rw [e0]
    dsimp only
    rw [e2]
    exact e3
  · intro j hj
    rw [hst3, b7 j (by rw [← hreg]; exact hj), hst]
  · intro j hj
    rw [c2 j (by rw [hp2.2.1, ← hp3.2.1]; exact hj), q7]
  · intro j hj
    rw [c3 j (by rw [hp2.2.2.1, ← hp3.2.2.1]; exact hj), q8]
  · intro w hw
    obtain ⟨u1, u2, u3⟩ := b8 w hw
    obtain ⟨v1, v2, v3, v4, v5, v6, v7, v8⟩ := c4 w hw
    refine ⟨hsb.1.trans u1, hsb.2.1.trans u2, ?_, ?_, ?_, ?_, ?_, ?_, ?_, ?_, ?_⟩
    · intro j hj hnz
      rw [hst3, hreg, u3 j hj (by rw [← hreg]; exact hnz)]
    · rw [v1, q1]
    · rw [v2, q2]
    · rw [v3, q3]
    · rw [v4, hp2.2.2.2.1, ← hp3.2.2.2.1, q4]
    · rw [v5, q5]
    · rw [v6, q6]
    · intro j hj
      rw [v7 j (by rw [hp2.2.1, ← hp3.2.1]; exact hj), q7]
    · intro j hj
      rw [v8 j (by rw [hp2.2.2.1, ← hp3.2.2.1]; exact hj), q8]

theorem forLoop_keeps {σ α : Type} (f : σ → α) (body : Nat → σ → Option σ)
    (hb : ∀ i s s1, body i s = some s1 → f s1 = f s) :
    ∀ (k i : Nat) (s s1 : σ), forLoop body i k s = some s1 → f s1 = f s := by
  intro k
  induction k with
  | zero =>
    intro i s s1 h
    simp only [forLoop, Option.some.injEq] at h
    rw [h]
  | succ k ih =>
    intro i s s1 h
    cases hbi : body i s with
    | none => simp [forLoop, hbi] at h
    | some s2 =>
      simp only [forLoop, hbi] at h
      rw [ih (i + 1) s2 s1 h, hb i s s2 hbi]

theorem status_byte_set_last_scan (i v : Nat) (s s1 : PMBus)
    (h : status_byte_set i v s = some s1) : s1.last_scan = s.last_scan := by
  unfold status_byte_set at h
  split at h <;> first | (cases h; rfl) | cases h

theorem status_step_last_scan (dev : Device) (i : Nat) (s s1 : PMBus)
    (h : status_step dev i s = some s1) : s1.last_scan = s.last_scan := by
  unfold status_step at h
  split at h
  · rw [status_byte_set_last_scan _ _ _ _ h]
    exact (sameDriver_groups (sameDriver_trans (sameDriver_delay 1 s)
      (sameDriver_read_byte dev _ (delay 1 s)))).2.2.2.2.2
  · cases h
    rfl

theorem scan_status_last_scan (dev : Device) (s s1 : PMBus)
    (h : scan_status dev s = some s1) : s1.last_scan = s.last_scan := by
  unfold scan_status at h
  dsimp only at h
  rw [forLoop_keeps (fun s => s.last_scan) (status_step dev) (status_step_last_scan dev)
    _ _ _ _ h]
  obtain ⟨v1, t1, e1, h1⟩ := read_word_ex dev 0x78 s
  rw [e1]
  obtain ⟨v2, t2, e2, h2⟩ := read_word_ex dev 0x79 (delay 1 { t1 with status_u8 := v1 % 256 })
  rw [e2]
  obtain ⟨rx1, ev1, rfl⟩ := h1
  obtain ⟨rx2, ev2, rfl⟩ := h2
  rfl

theorem temperature_step_last_scan (dev : Device) (i : Nat) (s s1 : PMBus)
    (h : temperature_step dev i s = some s1) : s1.last_scan = s.last_scan := by
  unfold temperature_step at h
  split at h
  · rename_i hi
    obtain ⟨a, e, t, -⟩ := read_linear_ex dev (0x8d + i) (.T ⟨i, hi⟩) (-10) 100 s
    rw [e] at h
    cases h
    exact t.2.2.2.2.1
  · cases h

theorem fan_step_last_scan (dev : Device) (i : Nat) (s s1 : PMBus)
    (h : fan_step dev i s = some s1) : s1.last_scan = s.last_scan := by
  unfold fan_step at h
  split at h
  · rename_i hi
    obtain ⟨a, e, t, -⟩ := read_linear_ex dev (0x90 + i) (.fan ⟨i, hi⟩) 0 3000 s
    rw [e] at h
    cases h
    exact t.2.2.2.2.1
  · cases h

theorem scan_telemetry_last_scan (dev : Device) (s s1 : PMBus)
    (h : scan_telemetry dev s = some s1) : s1.last_scan = s.last_scan := by
  obtain ⟨a1, e1, t1, -⟩ := read_linear_ex dev 0x88 .V_in 90 264 s
  obtain ⟨a2, e2, t2, -⟩ := read_linear_ex dev 0x89 .I_in 0 16 a1
  obtain ⟨a3, e3, t3, -⟩ := read_linear_ex dev 0x97 .W_in 0 750 a2
  obtain ⟨a4, e4, t4, -⟩ := read_vout_ex dev a3
  obtain ⟨a5, e5, t5, -⟩ := read_linear_ex dev 0x8c .I_out 0 70 a4
  obtain ⟨a6, e6, t6, -⟩ := read_linear_ex dev 0x96 .W_out 0 750 a5
  have t06 : a6.last_scan = s.last_scan := by
    rw [t6.2.2.2.2.1, t5.2.2.2.2.1, t4.2.2.2.2.1, t3.2.2.2.2.1, t2.2.2.2.2.1, t1.2.2.2.2.1]
  subst e1 e2 e3 e4 e5 e6
  unfold scan_telemetry at h
  dsimp only at h
  split at h
  · cases h
  · rename_i s7 h7
    rw [forLoop_keeps (fun s => s.last_scan) (fan_step dev) (fan_step_last_scan dev) _ _ _ _ h,
      forLoop_keeps (fun s => s.last_scan) (temperature_step dev)
        (temperature_step_last_scan dev) _ _ _ _ h7]
    exact t06

theorem scan_body_last_scan (dev : Device) (msecs : Nat) (s s1 : PMBus)
    (h : scan_body dev msecs s = some s1) : s1.last_scan = msecs := by
  obtain ⟨s0, e0, -, -, -, a4, -⟩ := scan_model_spec dev msecs s
  unfold scan_body at h
  dsimp only at h e0
  rw [e0] at h
  dsimp only at h
  split at h
  · cases h
  · rename_i s2 h2
    rw [scan_telemetry_last_scan dev s2 s1 h, scan_status_last_scan dev s0 s2 h2, a4]

theorem scan_throttled (dev : Device) (now : Nat) (s : PMBus)
    (h : (now % 4294967296 + 4294967296 - s.last_scan % 4294967296) % 4294967296 < 1000) :
    scan dev now s = some (0, s) := by
  unfold scan
  dsimp only
  rw [if_pos h]

theorem scan_due (dev : Device) (now : Nat) (s : PMBus)
    (h : ¬ (now % 4294967296 + 4294967296 - s.last_scan % 4294967296) % 4294967296 < 1000) :
    scan dev now s = (scan_body dev (now % 4294967296) s).map (fun s1 => (1, s1)) := by
  unfold scan
  dsimp only
  rw [if_neg h]
  cases scan_body dev (now % 4294967296) s <;> rfl

theorem scan_returns (dev : Device) (now : Nat) (s s1 : PMBus) (r : Int)
    (h : scan dev now s = some (r, s1)) :
    (r = 0 ∧ s1 = s
      ∧ (now % 4294967296 + 4294967296 - s.last_scan % 4294967296) % 4294967296 < 1000)
    ∨ (r = 1 ∧ s1.last_scan = now % 4294967296
      ∧ scan_body dev (now % 4294967296) s = some s1
      ∧ ¬ (now % 4294967296 + 4294967296 - s.last_scan % 4294967296) % 4294967296 < 1000) := by
  by_cases hc : (now % 4294967296 + 4294967296 - s.last_scan % 4294967296) % 4294967296 < 1000
  · rw [scan_throttled dev now s hc] at h
    simp only [Option.some.injEq, Prod.mk.injEq] at h
    exact Or.inl ⟨h.1.symm, h.2.symm, hc⟩
  · rw [scan_due dev now s hc] at h
    cases hb : scan_body dev (now % 4294967296) s with
    | none => simp [hb] at h
    | some s2 =>
      simp only [hb, Option.map_some', Option.some.injEq, Prod.mk.injEq] at h
      obtain ⟨h1, h2⟩ := h
      subst h2
      exact Or.inr ⟨h1.symm, scan_body_last_scan dev _ s s2 hb, rfl, hc⟩

theorem scan_spec (dev : Device) (now : Nat) (s : PMBus)
    (hdue : ¬ (now % 4294967296 + 4294967296 - s.last_scan % 4294967296) % 4294967296 < 1000)
    (hwf : wellFormed s) :
    ∃ s1, scan dev now s = some (1, s1)
      ∧ s1.last_scan = now % 4294967296 ∧ config s1 = config s ∧ profile_step s s1
      ∧ wellFormed s1
      ∧ (s.mfr_model.get 0 ≠ 0 → profile s1 = profile s ∧ identity s1 = identity s)
      ∧ (∃ evs, s1.trace = s.trace ++ evs)
      ∧ (∀ j, status_reg_at j s1 = 0 → status_byte_get j s1 = status_byte_get j s)
      ∧ (∀ j : Fin 3, s1.temperatures ≤ j.val → s1.T.get j = s.T.get j)
      ∧ (∀ j : Fin 2, s1.fans ≤ j.val → s1.fan.get j = s.fan.get j)
      ∧ (∀ w, reads dev w → scanned w s s1) := by
  obtain ⟨s1, e, h⟩ := scan_body_spec dev (now % 4294967296) s hwf
  refine ⟨s1, ?_, h⟩
  rw [scan_due dev now s hdue, e]
  rfl

theorem wellFormed_construct (v : ℚ) : wellFormed (construct v) :=
  ⟨rfl, rfl, Nat.le_refl 3, Nat.le_refl 2⟩

theorem linear2float_zero : linear2float 0 = 0 := by
  norm_num [linear2float, linear_y, linear_n, signExtend]

theorem linear2float_zero_word (x : Nat) (h : x % 65536 = 0) : linear2float x = 0 := by
  rw [← linear2float_mod, h, linear2float_zero]

/-- C4, where it fails: a freshly constructed driver is scanned at 999 ms and
again at 1000 ms, 1 ms later.  The first call returns 0 and leaves the state
as it was (less than 1000 ms have passed since the time 0 that `last_scan`
starts with), and the second call, on that state, returns 1: it is a full
scan, not a no-op. -/
theorem scan_second_call_counterexample :
    scan (wordDevice (fun _ => 0)) 999 (construct 0) = some (0, construct 0)
    ∧ ∃ s2, scan (wordDevice (fun _ => 0)) 1000 (construct 0) = some (1, s2) := by
  refine ⟨scan_throttled _ 999 (construct 0) (by decide), ?_⟩
  obtain ⟨s2, e, -⟩ := scan_spec (wordDevice (fun _ => 0)) 1000 (construct 0) (by decide)
    (wellFormed_construct 0)
  exact ⟨s2, e⟩

/-- C4, amended: when a call of scan at the clock reading `t1` has returned 1
and left the state `s1`, a call at a clock reading `t2` with
`(t2 - t1) mod 2^32 < 1000`, in particular with `0 ≤ t2 - t1 < 1000`, returns
0 whatever the device, and leaves the state `s1` as it is, trace included:
nothing is sent on the bus. -/
theorem scan_throttle_after_scan (dev dev2 : Device) (t1 t2 : Nat) (s s1 : PMBus)
    (hfirst : scan dev t1 s = some (1, s1))
    (hclose : elapsed t2 t1 < 1000) :
    scan dev2 t2 s1 = some (0, s1) := by
  rcases scan_returns dev t1 s s1 1 hfirst with h | h
  · exact absurd h.1 (by decide)
  · apply scan_throttled
    rw [h.2.1]
    unfold elapsed at hclose
    omega

/-- The instance of `scan_throttle_after_scan` on a freshly constructed
driver scanned at 1000 ms and again at 1999 ms. -/
theorem scan_throttle_after_scan_witness :
    ∃ s1, scan (wordDevice (fun _ => 0)) 1000 (construct 0) = some (1, s1)
      ∧ scan (wordDevice (fun _ => 0xffff)) 1999 s1 = some (0, s1) := by
  obtain ⟨s1, e, -⟩ := scan_spec (wordDevice (fun _ => 0)) 1000 (construct 0) (by decide)
    (wellFormed_construct 0)
  exact ⟨s1, e, scan_throttle_after_scan _ _ 1000 1999 (construct 0) s1 e (by decide)⟩

/-- C13, where it fails: every register of the device holds the word 0x1234.
A scan of a freshly constructed driver at 1000 ms returns 1 and leaves 0x34
in the aggregate field for 0x78, not the word 0x1234; the aggregate field
for 0x79 holds 0x1234. -/
theorem scan_status_u8_counterexample :
    ∃ s1, scan (wordDevice (fun _ => 0x1234)) 1000 (construct 0) = some (1, s1)
      ∧ s1.status_u8 = 0x34 ∧ s1.status_u8 ≠ 0x1234 ∧ s1.status_word = 0x1234 := by
  obtain ⟨s1, e, -, -, -, -, -, -, -, -, -, hv⟩ := scan_spec (wordDevice (fun _ => 0x1234)) 1000
    (construct 0) (by decide) (wellFormed_construct 0)
  obtain ⟨h1, h2, -⟩ := hv _ (wordDevice_reads _)
  refine ⟨s1, e, h1, ?_, h2⟩
  rw [h1]
  decide

/-- C13, amended: on a device whose register `reg` holds the word `w reg`, a
scan that is due returns 1 and leaves in the aggregate field for 0x78, which
is 8 bits wide, the low byte of the word read from 0x78 (the whole word only
when its high byte is 0), and in the aggregate field for 0x79 the whole
16-bit word read from 0x79. -/
theorem scan_aggregates (dev : Device) (w : Nat → Nat) (now : Nat) (s : PMBus)
    (hdev : reads dev w)
    (hdue : ¬ (now % 4294967296 + 4294967296 - s.last_scan % 4294967296) % 4294967296 < 1000)
    (hwf : wellFormed s) :
    ∃ s1, scan dev now s = some (1, s1)
      ∧ s1.status_u8 = w 0x78 % 256
      ∧ (w 0x78 / 256 % 256 = 0 → s1.status_u8 = w 0x78 % 65536)
      ∧ s1.status_word = w 0x79 % 256 + 256 * (w 0x79 / 256 % 256)
      ∧ s1.status_word = w 0x79 % 65536 := by
  obtain ⟨s1, e, -, -, -, -, -, -, -, -, -, hv⟩ := scan_spec dev now s hdue hwf
  obtain ⟨h1, h2, -⟩ := hv w hdev
  refine ⟨s1, e, h1, ?_, ?_, h2⟩
  · intro h
    rw [h1]
    omega
  · rw [h2]
    omega

/-- The instance of `scan_aggregates` on a freshly constructed driver scanned
at 1000 ms on a device whose every register holds 0x1234. -/
theorem scan_aggregates_witness :
    ∃ s1, scan (wordDevice (fun _ => 0x1234)) 1000 (construct 0) = some (1, s1)
      ∧ s1.status_u8 = 0x1234 % 256
      ∧ (0x1234 / 256 % 256 = 0 → s1.status_u8 = 0x1234 % 65536)
      ∧ s1.status_word = 0x1234 % 256 + 256 * (0x1234 / 256 % 256)
      ∧ s1.status_word = 0x1234 % 65536 :=
  scan_aggregates (wordDevice (fun _ => 0x1234)) (fun _ => 0x1234) 1000 (construct 0)
    (wordDevice_reads _) (by decide) (wellFormed_construct 0)

theorem gate_zero_inside (hi previous : ℚ) (h : 0 ≤ hi) : gate 0 0 hi previous = 0 := by
  rw [gate, if_pos ⟨le_refl 0, h⟩]

/-- C17, where it fails: every register of the device reads as the word
0x0000, and the driver holds the input current 5.  A scan at 1000 ms returns
1 and leaves the input current 0, not 5: the decoded value 0 lies inside the
range [0, 16]. -/
theorem scan_zero_word_counterexample :
    ∃ s1, scan (wordDevice (fun _ => 0)) 1000 { construct 0 with I_in := 5 } = some (1, s1)
      ∧ s1.I_in = 0
      ∧ s1.I_in ≠ ({ construct 0 with I_in := 5 } : PMBus).I_in := by
  obtain ⟨s1, e, -, -, -, -, -, -, -, -, -, hv⟩ := scan_spec (wordDevice (fun _ => 0)) 1000
    { construct 0 with I_in := 5 } (by decide) (wellFormed_construct 0)
  obtain ⟨-, -, -, -, h, -⟩ := hv _ (wordDevice_reads _)
  have h0 : s1.I_in = 0 := by
    rw [h, linear2float_zero]
    exact gate_zero_inside 16 _ (by norm_num)
  refine ⟨s1, e, h0, ?_⟩
  rw [h0]
  show (0 : ℚ) ≠ 5
  norm_num

/-- C17, amended: on a device whose register `reg` holds the word `w reg`, a
scan that is due returns 1, and a register that reads as the all-zero word
leaves V_in at its prior value (0 is outside [90, 264]) but sets every other
telemetry field read from it to 0, the decoded value 0 being inside the
inclusive range of the field: I_in, W_in, V_out (in either decode mode),
I_out, W_out, every active `T[i]` and every active `fan[i]`. -/
theorem scan_zero_word (dev : Device) (w : Nat → Nat) (now : Nat) (s : PMBus)
    (hdev : reads dev w)
    (hdue : ¬ (now % 4294967296 + 4294967296 - s.last_scan % 4294967296) % 4294967296 < 1000)
    (hwf : wellFormed s) :
    ∃ s1, scan dev now s = some (1, s1)
      ∧ (w 0x88 % 65536 = 0 → s1.V_in = s.V_in)
      ∧ (w 0x89 % 65536 = 0 → s1.I_in = 0)
      ∧ (w 0x97 % 65536 = 0 → s1.W_in = 0)
      ∧ (w 0x8b % 65536 = 0 → s1.V_out = 0)
      ∧ (w 0x8c % 65536 = 0 → s1.I_out = 0)
      ∧ (w 0x96 % 65536 = 0 → s1.W_out = 0)
      ∧ (∀ j : Fin 3, j.val < s1.temperatures → w (0x8d + j.val) % 65536 = 0 →
          s1.T.get j = 0)
      ∧ (∀ j : Fin 2, j.val < s1.fans → w (0x90 + j.val) % 65536 = 0 → s1.fan.get j = 0) := by
  obtain ⟨s1, e, -, -, -, -, -, -, -, -, -, hv⟩ := scan_spec dev now s hdue hwf
  obtain ⟨-, -, -, v1, v2, v3, v4, v5, v6, v7, v8⟩ := hv w hdev
  refine ⟨s1, e, ?_, ?_, ?_, ?_, ?_, ?_, ?_, ?_⟩
  · intro h
    rw [v1, linear2float_zero_word _ h, gate, if_neg]
    norm_num
  · intro h
    rw [v2, linear2float_zero_word _ h]
    exact gate_zero_inside _ _ (by norm_num)
  · intro h
    rw [v3, linear2float_zero_word _ h]
    exact gate_zero_inside _ _ (by norm_num)
  · intro h
    rw [v4, h, linear2float_zero_word _ h]
    split
    · simp
    · exact gate_zero_inside _ _ (by norm_num)
  · intro h
    rw [v5, linear2float_zero_word _ h]
    exact gate_zero_inside _ _ (by norm_num)
  · intro h
    rw [v6, linear2float_zero_word _ h]
    exact gate_zero_inside _ _ (by norm_num)
  · intro j hj h
    rw [v7 j hj, linear2float_zero_word _ h, gate, if_pos]
    norm_num
  · intro j hj h
    rw [v8 j hj, linear2float_zero_word _ h]
    exact gate_zero_inside _ _ (by norm_num)

/-- The instance of `scan_zero_word` on a freshly constructed driver scanned
at 1000 ms on a device whose every register reads as zero. -/
theorem scan_zero_word_witness :
    ∃ s1, scan (wordDevice (fun _ => 0)) 1000 (construct 0) = some (1, s1)
      ∧ (0 % 65536 = 0 → s1.V_in = (construct 0).V_in)
      ∧ (0 % 65536 = 0 → s1.I_in = 0)
      ∧ (0 % 65536 = 0 → s1.W_in = 0)
      ∧ (0 % 65536 = 0 → s1.V_out = 0)
      ∧ (0 % 65536 = 0 → s1.I_out = 0)
      ∧ (0 % 65536 = 0 → s1.W_out = 0)
      ∧ (∀ j : Fin 3, j.val < s1.temperatures → 0 % 65536 = 0 → s1.T.get j = 0)
      ∧ (∀ j : Fin 2, j.val < s1.fans → 0 % 65536 = 0 → s1.fan.get j = 0) :=
  scan_zero_word (wordDevice (fun _ => 0)) (fun _ => 0) 1000 (construct 0)
    (wordDevice_reads _) (by decide) (wellFormed_construct 0)

/-- C20: a call of scan at the clock reading `now` is a no-op exactly when
`(now - last_scan) mod 2^32 < 1000`, the difference being the one of
unsigned 32-bit arithmetic, which is right across the wraparound of the
clock.  In that case it returns 0 and the state is what it was, `last_scan`
and the trace included; otherwise, the loops staying inside their arrays, it
returns 1 after the full scan, with `last_scan` set to `now`.  `last_scan`
starts at 0, so that on a freshly constructed driver every scan before
1000 ms is a no-op, and it is changed by nothing but a scan that returns 1:
not by a scan that returns 0, check_model, clear_faults, `on` or standby. -/
theorem scan_noop_iff (dev : Device) (now : Nat) (s : PMBus) :
    (elapsed now s.last_scan < 1000 → scan dev now s = some (0, s))
    ∧ (¬ elapsed now s.last_scan < 1000 → wellFormed s →
        ∃ s1, scan dev now s = some (1, s1) ∧ s1.last_scan = now % 4294967296
          ∧ scan_body dev (now % 4294967296) s = some s1
          ∧ ∀ w, reads dev w → scanned w s s1)
    ∧ ((∃ s1, scan dev now s = some (0, s1)) ↔ elapsed now s.last_scan < 1000)
    ∧ (∀ r s1, scan dev now s = some (r, s1) →
        (r = 0 ∧ s1 = s) ∨ (r = 1 ∧ s1.last_scan = now % 4294967296))
    ∧ (∀ v t, t < 1000 → scan dev t (construct v) = some (0, construct v))
    ∧ (∀ s1, check_model dev s = some s1 → s1.last_scan = s.last_scan)
    ∧ (clear_faults s).last_scan = s.last_scan
    ∧ (on_ s).last_scan = s.last_scan ∧ (standby s).last_scan = s.last_scan := by
  have hc : elapsed now s.last_scan < 1000
      ↔ (now % 4294967296 + 4294967296 - s.last_scan % 4294967296) % 4294967296 < 1000 := by
    unfold elapsed
    omega
  refine ⟨?_, ?_, ?_, ?_, ?_, ?_, (clear_faults_groups s).2.2.2.2.2.2, ?_, ?_⟩
  · intro h
    exact scan_throttled dev now s (hc.1 h)
  · intro h hwf
    obtain ⟨s1, e, hl, -, -, -, -, -, -, -, -, hv⟩ := scan_spec dev now s (fun h' => h (hc.2 h')) hwf
    refine ⟨s1, e, hl, ?_, hv⟩
    rcases scan_returns dev now s s1 1 e with h1 | h1
    · exact absurd h1.1 (by decide)
    · exact h1.2.2.1
  · constructor
    · rintro ⟨s1, e⟩
      rcases scan_returns dev now s s1 0 e with h1 | h1
      · exact hc.2 h1.2.2
      · exact absurd h1.1 (by decide)
    · intro h
      exact ⟨s, scan_throttled dev now s (hc.1 h)⟩
  · intro r s1 e
    rcases scan_returns dev now s s1 r e with h1 | h1
    · exact Or.inl ⟨h1.1, h1.2.1⟩
    · exact Or.inr ⟨h1.1, h1.2.1⟩
  · intro v t ht
    apply scan_throttled
    show (t % 4294967296 + 4294967296 - 0 % 4294967296) % 4294967296 < 1000
    omega
  · intro s1 e
    obtain ⟨s2, e2, -, -, -, hl, -⟩ := check_model_spec dev s
    rw [e] at e2
    cases e2
    exact hl
  · simp only [on_, emit]
  · simp only [standby, emit]

/-- C11: when the model buffer read by check_model begins, after its length
byte, with `DPS750TB1` and the revision byte read from 0x98 is 0,
check_model returns with `vout_scale` exactly 1/512.  With that scale, on a
device whose register 0x8b holds the raw word `r`, a scan that is due
returns 1 and leaves `V_out = r / 512` when `r < 8192`, which is when
`r / 512 < 16`, and leaves V_out as it was otherwise (so at `r = 8192`, which
is 16.0); the value stored is `r / 512`, not the linear11 decode of `r`. -/
theorem vout_linear_fixed (dev0 : Device) (s0 : PMBus) (cs : List Nat)
    (dev : Device) (w : Nat → Nat) (now : Nat) (s : PMBus)
    (hread : model_bytes dev0 s0 = some cs) (hdps : DPS750TB1 <+: cs)
    (hrev : model_revision dev0 s0 = some 0)
    (hdev : reads dev w)
    (hdue : ¬ (now % 4294967296 + 4294967296 - s.last_scan % 4294967296) % 4294967296 < 1000)
    (hwf : wellFormed s) (hscale : s.vout_scale = 1 / 512) :
    (∃ s1, check_model dev0 s0 = some s1 ∧ s1.vout_scale = 1 / 512)
    ∧ ∃ s1, scan dev now s = some (1, s1)
      ∧ (w 0x8b % 65536 < 8192 → s1.V_out = ((w 0x8b % 65536 : Nat) : ℚ) / 512)
      ∧ (¬ w 0x8b % 65536 < 8192 → s1.V_out = s.V_out)
      ∧ (((w 0x8b % 65536 : Nat) : ℚ) / 512 < 16 ↔ w 0x8b % 65536 < 8192) := by
  have harith : ∀ r : Nat, ((1 : ℚ) / 512 * (r : ℚ) < 16 ↔ r < 8192)
      ∧ (1 : ℚ) / 512 * (r : ℚ) = (r : ℚ) / 512 := by
    intro r
    refine ⟨⟨fun h => ?_, fun h => ?_⟩, by ring⟩
    · have h' : (r : ℚ) < 8192 := by linarith
      exact_mod_cast h'
    · have h' : (r : ℚ) < 8192 := by exact_mod_cast h
      linarith
  constructor
  · obtain ⟨s1, e1, hcs, -⟩ := model_bytes_spec dev0 s0 cs hread
    have hd : strncmp (s1.mfr_model.toList.drop 1) DPS750TB1 9 = 0 := by
      rw [hcs]; exact (strncmp_DPS750TB1 cs).2 hdps
    have hr : s1.pmbus_revision = 0 := by
      simpa [model_revision, e1] using hrev
    obtain ⟨s2, e2, -, -, -, hv, -⟩ := model_setup_dps_ex dev0 s1 hd
    refine ⟨s2, by simp only [check_model, e1, e2], ?_⟩
    rw [hv, if_pos hr]
  · obtain ⟨s1, e, -, -, hp, -, -, -, -, -, -, hv⟩ := scan_spec dev now s hdue hwf
    obtain ⟨-, -, -, -, -, -, v4, -⟩ := hv w hdev
    have hs1 : s1.vout_scale = 1 / 512 := by
      rcases hp.2.2.2 with h | h
      · exact h
      · rw [h, hscale]
    have hne : s1.vout_scale ≠ 0 := by
      rw [hs1]
      norm_num
    rw [if_pos hne, hs1] at v4
    refine ⟨s1, e, ?_, ?_, ?_⟩
    · intro h
      rw [v4, if_pos ((harith _).1.2 h), (harith _).2]
    · intro h
      rw [v4, if_neg (fun h' => h ((harith _).1.1 h'))]
    · rw [← (harith _).2]
      exact (harith _).1

/-- The instance of `vout_linear_fixed`: a fresh driver and a device whose
model register answers `DPS750TB1 AB` and whose revision byte is 0; and a
fresh driver with the scale 1/512 scanned at 1000 ms on a device whose every
register holds 0x1800, which is 12.0 V. -/
theorem vout_linear_fixed_witness :
    (∃ s1, check_model (regDevice (fun reg => if reg = 0x9a then 12 :: (DPS750TB1 ++ [32, 65, 66])
        else [0])) (construct 0) = some s1 ∧ s1.vout_scale = 1 / 512)
    ∧ ∃ s1, scan (wordDevice (fun _ => 0x1800)) 1000 (construct (1 / 512)) = some (1, s1)
      ∧ (0x1800 % 65536 < 8192 → s1.V_out = ((0x1800 % 65536 : Nat) : ℚ) / 512)
      ∧ (¬ 0x1800 % 65536 < 8192 → s1.V_out = (construct (1 / 512)).V_out)
      ∧ (((0x1800 % 65536 : Nat) : ℚ) / 512 < 16 ↔ 0x1800 % 65536 < 8192) :=
  vout_linear_fixed _ (construct 0)
    (DPS750TB1 ++ [32, 65, 0, 0, 0, 0, 0, 0, 0, 0, 0, 0, 0, 0]) (wordDevice (fun _ => 0x1800))
    (fun _ => 0x1800) 1000 (construct (1 / 512)) (by decide) (by decide) (by decide)
    (wordDevice_reads _) (by decide) (wellFormed_construct _) rfl

theorem profileOK_construct (v : ℚ) : profileOK (construct v) := by
  refine ⟨?_, rfl, rfl, Or.inr rfl, Or.inr rfl⟩
  intro i hi
  right
  interval_cases i <;> rfl

theorem profileOK_step {s s1 : PMBus} (h : profile_step s s1) (hs : profileOK s) :
    profileOK s1 := by
  obtain ⟨r, t, f, -⟩ := h
  obtain ⟨k, k8, k9, kt, kf⟩ := hs
  refine ⟨?_, ?_, ?_, ?_, ?_⟩
  · intro i hi
    rcases r i with h | h
    · exact Or.inl h
    · rw [h]; exact k i hi
  · rcases r 8 with h | h
    · exact h
    · rw [h]; exact k8
  · rcases r 9 with h | h
    · exact h
    · rw [h]; exact k9
  · rcases t with h | h
    · exact Or.inl h
    · rw [h]; exact kt
  · rcases f with h | h
    · exact Or.inl h
    · rw [h]; exact kf

theorem wellFormed_of_profileOK {s : PMBus} (h : profileOK s) : wellFormed s := by
  obtain ⟨-, k8, k9, kt, kf⟩ := h
  refine ⟨k8, k9, ?_, ?_⟩
  · rcases kt with h | h <;> omega
  · rcases kf with h | h <;> omega

theorem step_profile {s s1 : PMBus} (h : Step s s1) (hwf : wellFormed s) :
    profile_step s s1 := by
  cases h with
  | init dev pson i2c_enable direction address Debug_Serial e =>
    obtain ⟨s2, -, e2, -, -, -, -, -, hp⟩ := init_spec dev pson i2c_enable direction address
      Debug_Serial s
    rw [e] at e2
    simp only [Option.some.injEq, Prod.mk.injEq] at e2
    rw [e2.2]
    exact hp
  | check_model dev e =>
    obtain ⟨s2, e2, -, -, -, -, -, hp⟩ := check_model_spec dev s
    rw [e] at e2
    cases e2
    exact hp
  | scan dev now e =>
    rcases scan_returns dev now s s1 _ e with h | h
    · rw [h.2.1]
      exact profile_step_refl s
    · obtain ⟨s2, e2, -, -, hp, -⟩ := scan_body_spec dev (now % 4294967296) s hwf
      rw [h.2.2.1] at e2
      cases e2
      exact hp
  | clear_faults =>
    exact profile_step_congr rfl (clear_faults_groups s).2.2.2.2.1 (profile_step_refl s)
  | on_ => exact profile_step_refl s
  | standby => exact profile_step_refl s

theorem reachable_profileOK {s : PMBus} (h : Reachable s) : profileOK s := by
  induction h with
  | construct v => exact profileOK_construct v
  | step _ hstep ih => exact profileOK_step (step_profile hstep (wellFormed_of_profileOK ih)) ih

theorem status_reg_at_beyond (s : PMBus) (i : Nat) (hi : 10 ≤ i) : status_reg_at i s = 0 := by
  unfold status_reg_at
  exact List.getD_eq_default _ _ (by rw [Mathlib.Vector.toList_length]; exact hi)

/-- C18: in every state that the driver can reach from the constructor by
calls of init, check_model, scan, clear_faults, `on` and standby, whatever
the device answers: the entry `i` of the status-register table, for `i` in
0..7, is 0 or the register address `0x7a + i`; the entries 8 and 9 are 0; a
non-zero entry has an index below 8, so that at most 8 entries are active;
and an entry that is 0 is 0 in every state reached from there by further
calls. -/
theorem status_table_invariant (s : PMBus) (h : Reachable s) :
    (∀ i, i < 8 → status_reg_at i s = 0 ∨ status_reg_at i s = 0x7a + i)
    ∧ status_reg_at 8 s = 0 ∧ status_reg_at 9 s = 0
    ∧ (∀ i, status_reg_at i s ≠ 0 → i < 8)
    ∧ (∀ s1, Relation.ReflTransGen Step s s1 →
        ∀ i, status_reg_at i s = 0 → status_reg_at i s1 = 0) := by
  have hok := reachable_profileOK h
  obtain ⟨k, k8, k9, -, -⟩ := hok
  refine ⟨k, k8, k9, ?_, ?_⟩
  · intro i hi
    by_contra hge
    have : i = 8 ∨ i = 9 ∨ 10 ≤ i := by omega
    rcases this with rfl | rfl | h10
    · exact hi k8
    · exact hi k9
    · exact hi (status_reg_at_beyond s i h10)
  · intro s1 hrun
    induction hrun with
    | refl => exact fun _ hi => hi
    | tail hrun hstep ih =>
      rename_i b c
      intro i hi
      have hb : Reachable b := by
        clear ih hstep
        induction hrun with
        | refl => exact h
        | tail _ hs ih2 => exact Reachable.step ih2 hs
      have hp := step_profile hstep (wellFormed_of_profileOK (reachable_profileOK hb))
      rcases hp.1 i with h0 | h0
      · exact h0
      · rw [h0]
        exact ih i hi

/-- The instance of `status_table_invariant` at the state the constructor
leaves. -/
theorem status_table_invariant_witness :
    (∀ i, i < 8 → status_reg_at i (construct 0) = 0 ∨ status_reg_at i (construct 0) = 0x7a + i)
    ∧ status_reg_at 8 (construct 0) = 0 ∧ status_reg_at 9 (construct 0) = 0
    ∧ (∀ i, status_reg_at i (construct 0) ≠ 0 → i < 8)
    ∧ (∀ s1, Relation.ReflTransGen Step (construct 0) s1 →
        ∀ i, status_reg_at i (construct 0) = 0 → status_reg_at i s1 = 0) :=
  status_table_invariant (construct 0) (Reachable.construct 0)

theorem status_reg_at_set56 (s : PMBus) (i : Nat) :
    ((s.status_reg.set 5 0).set 6 0).toList.getD i 0
      = if i = 6 then 0 else if i = 5 then 0 else status_reg_at i s := by
  have k := status_reg_at_set { s with status_reg := s.status_reg.set 5 0 } 6 0 i
  have k5 := status_reg_at_set s 5 0 i
  simp only [status_reg_at] at k k5 ⊢
  rw [k, k5]
  rfl

theorem check_model_dps_table (dev : Device) (s s1 : PMBus) (h : check_model dev s = some s1)
    (hdps : DPS750TB1 <+: s1.mfr_model.toList.drop 1) :
    status_reg_at 5 s1 = 0 ∧ status_reg_at 6 s1 = 0 := by
  obtain ⟨m, e1, -⟩ := model_read_spec dev s
  obtain ⟨b, e2, hid, -⟩ := model_setup_spec dev m
  have hb : s1 = b := by
    simp only [check_model, e1, e2, Option.some.injEq] at h
    exact h.symm
  subst hb
  have hmm : s1.mfr_model = m.mfr_model := by
    simp only [identity, Prod.mk.injEq] at hid
    exact hid.2.1
  have hd : strncmp (m.mfr_model.toList.drop 1) DPS750TB1 9 = 0 := by
    rw [← hmm]; exact (strncmp_DPS750TB1 _).2 hdps
  obtain ⟨b2, e3, hreg, -⟩ := model_setup_dps_ex dev m hd
  rw [e2] at e3
  cases e3
  constructor
  · rw [status_reg_at, hreg, status_reg_at_set56]; rfl
  · rw [status_reg_at, hreg, status_reg_at_set56]; rfl

theorem init_dps_table (dev : Device) (pson i2c_enable direction : Int) (address : Nat)
    (Debug_Serial : Bool) (s s1 : PMBus) (r : Int) (hwf : wellFormed s)
    (h : init dev pson i2c_enable direction address Debug_Serial s = some (r, s1))
    (hdps : DPS750TB1 <+: s1.mfr_model.toList.drop 1) :
    wellFormed s1 ∧ status_reg_at 5 s1 = 0 ∧ status_reg_at 6 s1 = 0
      ∧ s1.status_other = 0 ∧ s1.status_mfr_specific = 0 := by
  obtain ⟨a, ea, -⟩ := init_strings_spec dev
    (init_lines pson i2c_enable direction address Debug_Serial s)
  obtain ⟨b, eb, -⟩ := check_model_spec dev a
  have hs1 : s1 = clear_faults b := by
    simp only [init, ea, eb, Option.some.injEq, Prod.mk.injEq] at h
    exact h.2.symm
  obtain ⟨hst, -, hid, -, hp, -⟩ := clear_faults_groups b
  have hmm : (clear_faults b).mfr_model = b.mfr_model := by
    simp only [identity, Prod.mk.injEq] at hid
    exact hid.2.1
  have hreg : ∀ j, status_reg_at j (clear_faults b) = status_reg_at j b := by
    intro j
    simp only [profile, Prod.mk.injEq] at hp
    simp only [status_reg_at, hp.1]
  obtain ⟨s2, -, e2, -, -, -, hstat, -, hps⟩ := init_spec dev pson i2c_enable direction address
    Debug_Serial s
  rw [h] at e2
  simp only [Option.some.injEq, Prod.mk.injEq] at e2
  obtain ⟨-, rfl⟩ := e2
  have hb := check_model_dps_table dev a b eb (by rw [← hmm, ← hs1]; exact hdps)
  simp only [status, Prod.mk.injEq] at hstat
  refine ⟨wellFormed_of_profile_step hps hwf, ?_, ?_, hstat.2.2.2.2.2.2.2.1,
    hstat.2.2.2.2.2.2.2.2.1⟩
  · rw [hs1, hreg]; exact hb.1
  · rw [hs1, hreg]; exact hb.2

theorem polls_keep {s s2 : PMBus} (h : Polls s s2) :
    wellFormed s ∧ status_reg_at 5 s = 0 ∧ status_reg_at 6 s = 0
      ∧ s.status_other = 0 ∧ s.status_mfr_specific = 0 →
    wellFormed s2 ∧ status_reg_at 5 s2 = 0 ∧ status_reg_at 6 s2 = 0
      ∧ s2.status_other = 0 ∧ s2.status_mfr_specific = 0 := by
  induction h with
  | done s => exact fun h => h
  | @scan dev now s s1 s3 r e _ ih =>
    intro hI
    apply ih
    rcases scan_returns dev now s s1 r e with h | h
    · rw [h.2.1]
      exact hI
    · obtain ⟨t, et, -, -, hp, hwf1, -, -, hk, -⟩ := scan_body_spec dev (now % 4294967296) s hI.1
      rw [h.2.2.1] at et
      cases et
      have h5 : status_reg_at 5 s1 = 0 := by
        rcases hp.1 5 with h0 | h0
        · exact h0
        · rw [h0]; exact hI.2.1
      have h6 : status_reg_at 6 s1 = 0 := by
        rcases hp.1 6 with h0 | h0
        · exact h0
        · rw [h0]; exact hI.2.2.1
      exact ⟨hwf1, h5, h6, (hk 5 h5).trans hI.2.2.2.1, (hk 6 h6).trans hI.2.2.2.2⟩
  | @clear_faults s s3 _ ih =>
    intro hI
    apply ih
    obtain ⟨hst, -, -, -, hp, -⟩ := clear_faults_groups s
    have hps : profile_step s (clear_faults s) :=
      profile_step_congr rfl hp (profile_step_refl s)
    have hreg : ∀ j, status_reg_at j (clear_faults s) = status_reg_at j s := by
      intro j
      simp only [profile, Prod.mk.injEq] at hp
      simp only [status_reg_at, hp.1]
    simp only [status, Prod.mk.injEq] at hst
    exact ⟨wellFormed_of_profile_step hps hI.1, (hreg 5).trans hI.2.1, (hreg 6).trans hI.2.2.1,
      hst.2.2.2.2.2.2.2.1, hst.2.2.2.2.2.2.2.2.1⟩

theorem answers_reads {dev : Device} {w : Nat → Nat} (h : answers dev w) : reads dev w := by
  intro reg s
  constructor
  · obtain ⟨rest, e⟩ := h s.trace s.pmbus_address (reg % 256) 2 true
    simp only [read_word, select, requestFrom, emit, List.append_assoc, List.cons_append, List.nil_append,
      e, List.map_cons, List.take_succ_cons, List.take_zero, I2C_read, u16]
    have e1 : (((w (reg % 256) % 256 % 256 : Nat) : Int) % 65536).toNat
        = w (reg % 256) % 256 := by omega
    have e2 : (((w (reg % 256) / 256 % 256 % 256 : Nat) : Int) * 256 % 65536).toNat
        = (w (reg % 256) / 256 % 256) * 256 := by omega
    rw [e1, e2, or_word _ _ (Nat.mod_lt _ (by omega))]
    omega
  · obtain ⟨rest, e⟩ := h s.trace s.pmbus_address (reg % 256) 1 true
    simp only [read_byte, select, requestFrom, emit, List.append_assoc, List.cons_append, List.nil_append,
      e, List.map_cons, List.take_succ_cons, List.take_zero, I2C_read, u8]
    omega

theorem regDevice_answers (mem : Nat → List Nat) (w : Nat → Nat)
    (h : ∀ reg, ∃ rest, mem reg = (w reg % 256) :: (w reg / 256 % 256) :: rest) :
    answers (regDevice mem) w := by
  intro tr a reg q b
  obtain ⟨rest, e⟩ := h reg
  refine ⟨rest, ?_⟩
  have hsel : selected (tr ++ [.beginTransmission a, .write reg, .endTransmission false,
      .requestFrom a q b]) = reg := by
    simp [selected, List.foldl_append]
  simp only [regDevice, hsel, e]

theorem wordDevice_answers (w : Nat → Nat) : answers (wordDevice w) w :=
  regDevice_answers _ w (fun _ => ⟨[], rfl⟩)

/-- C3: on a device that answers a read request for the register `reg` with
the two bytes of the word `w reg`, low byte first, a scan that is due, on a
driver whose model is detected (`mfr_model[0]` is not 0) and whose output
voltage is decoded as linear11 (`vout_scale` is 0), returns 1 and leaves in
every telemetry field the gated decode of the word at its register: V_in
0x88 [90,264], I_in 0x89 [0,16], W_in 0x97 [0,750], V_out 0x8b [0,9999],
I_out 0x8c [0,70], W_out 0x96 [0,750], `T[i]` 0x8d+i [-10,100] for
`i < temperatures`, `fan[i]` 0x90+i [0,3000] for `i < fans`; the entries of
`T` and `fan` at or above the sensor counts are what they were. -/
theorem scan_reads_telemetry (dev : Device) (w : Nat → Nat) (now : Nat) (s : PMBus)
    (hdev : answers dev w)
    (hdue : ¬ (now % 4294967296 + 4294967296 - s.last_scan % 4294967296) % 4294967296 < 1000)
    (hwf : wellFormed s) (hmodel : s.mfr_model.get 0 ≠ 0) (hlinear : s.vout_scale = 0) :
    ∃ s1, scan dev now s = some (1, s1)
      ∧ s1.V_in = gate (linear2float (w 0x88)) 90 264 s.V_in
      ∧ s1.I_in = gate (linear2float (w 0x89)) 0 16 s.I_in
      ∧ s1.W_in = gate (linear2float (w 0x97)) 0 750 s.W_in
      ∧ s1.V_out = gate (linear2float (w 0x8b)) 0 9999 s.V_out
      ∧ s1.I_out = gate (linear2float (w 0x8c)) 0 70 s.I_out
      ∧ s1.W_out = gate (linear2float (w 0x96)) 0 750 s.W_out
      ∧ (∀ j : Fin 3, j.val < s.temperatures →
          s1.T.get j = gate (linear2float (w (0x8d + j.val))) (-10) 100 (s.T.get j))
      ∧ (∀ j : Fin 2, j.val < s.fans →
          s1.fan.get j = gate (linear2float (w (0x90 + j.val))) 0 3000 (s.fan.get j))
      ∧ (∀ j : Fin 3, s.temperatures ≤ j.val → s1.T.get j = s.T.get j)
      ∧ (∀ j : Fin 2, s.fans ≤ j.val → s1.fan.get j = s.fan.get j) := by
  obtain ⟨s1, e, -, -, -, -, hm, -, -, hT, hF, hv⟩ := scan_spec dev now s hdue hwf
  obtain ⟨-, -, -, v1, v2, v3, v4, v5, v6, v7, v8⟩ := hv w (answers_reads hdev)
  have hp := (hm hmodel).1
  simp only [profile, Prod.mk.injEq] at hp
  obtain ⟨-, pt, pf, pv, -⟩ := hp
  rw [pt] at hT v7
  rw [pf] at hF v8
  rw [pv, hlinear] at v4
  exact ⟨s1, e, v1, v2, v3, by simpa using v4, v5, v6, v7, v8, hT, hF⟩

/-- The instance of `scan_reads_telemetry` on a fresh driver with a model
string in place and linear11 output voltage, scanned at 1000 ms on a device
whose register `reg` holds the word `0xf800 + reg`, a different word in
every register: the exponent -1 with the register address as mantissa. -/
theorem scan_reads_telemetry_witness :
    ∃ s1, scan (wordDevice (fun reg => 0xf800 + reg)) 1000
        { construct 0 with mfr_model := Mathlib.Vector.replicate 24 65 } = some (1, s1)
      ∧ s1.V_in = gate (linear2float (0xf800 + 0x88)) 90 264 240
      ∧ s1.I_in = gate (linear2float (0xf800 + 0x89)) 0 16 0
      ∧ s1.W_in = gate (linear2float (0xf800 + 0x97)) 0 750 0
      ∧ s1.V_out = gate (linear2float (0xf800 + 0x8b)) 0 9999 0
      ∧ s1.I_out = gate (linear2float (0xf800 + 0x8c)) 0 70 0
      ∧ s1.W_out = gate (linear2float (0xf800 + 0x96)) 0 750 0
      ∧ (∀ j : Fin 3, j.val < 3 →
          s1.T.get j = gate (linear2float (0xf800 + (0x8d + j.val))) (-10) 100
            (({ construct 0 with mfr_model := Mathlib.Vector.replicate 24 65 } : PMBus).T.get j))
      ∧ (∀ j : Fin 2, j.val < 2 →
          s1.fan.get j = gate (linear2float (0xf800 + (0x90 + j.val))) 0 3000
            (({ construct 0 with mfr_model := Mathlib.Vector.replicate 24 65 } : PMBus).fan.get j))
      ∧ (∀ j : Fin 3, 3 ≤ j.val → s1.T.get j
          = ({ construct 0 with mfr_model := Mathlib.Vector.replicate 24 65 } : PMBus).T.get j)
      ∧ (∀ j : Fin 2, 2 ≤ j.val → s1.fan.get j
          = ({ construct 0 with mfr_model := Mathlib.Vector.replicate 24 65 } : PMBus).fan.get j) :=
  scan_reads_telemetry (wordDevice (fun reg => 0xf800 + reg)) (fun reg => 0xf800 + reg) 1000
    { construct 0 with mfr_model := Mathlib.Vector.replicate 24 65 }
    (wordDevice_answers _) (by decide) (wellFormed_construct 0) (by decide) rfl

/-- C12, evaluated where it fails: the device is a DPS750TB1 whose model
register 0x9a answers with the length byte 9 and the nine characters
`DPS750TB1`, and whose other registers hold the word 0x0055.  init on a
freshly constructed driver returns 0 with status_other and
status_mfr_specific zero, but it has not recognised the model (the ninth
character is never read), so the entries 5 and 6 of the status-register
table are still 0x7f and 0x80; the scan at 1000 ms returns 1 and leaves 0x55
in status_other and in status_mfr_specific. -/
theorem init_scan_exact_model_status_other :
    ∃ s1 s2,
      init (regDevice (fun reg => if reg = 0x9a then 9 :: DPS750TB1 else [0x55, 0]))
        2 25 0 0x58 false (construct 0) = some (0, s1)
      ∧ s1.status_other = 0 ∧ s1.status_mfr_specific = 0
      ∧ status_reg_at 5 s1 = 0x7f ∧ status_reg_at 6 s1 = 0x80
      ∧ scan (regDevice (fun reg => if reg = 0x9a then 9 :: DPS750TB1 else [0x55, 0]))
        1000 s1 = some (1, s2)
      ∧ s2.status_other = 0x55 ∧ s2.status_mfr_specific = 0x55 := by
  have hans : answers (regDevice (fun reg => if reg = 0x9a then 9 :: DPS750TB1 else [0x55, 0]))
      (fun reg => if reg = 0x9a then 9 + 256 * 68 else 0x55) := by
    apply regDevice_answers
    intro reg
    by_cases h : reg = 0x9a
    · exact ⟨[80, 83, 55, 53, 48, 84, 66, 49], by simp [h, DPS750TB1]⟩
    · exact ⟨[], by simp [h]⟩
  have hev : (init (regDevice (fun reg => if reg = 0x9a then 9 :: DPS750TB1 else [0x55, 0]))
      2 25 0 0x58 false (construct 0)).map
        (fun r => (r.2.mfr_model.get 0, status_reg_at 5 r.2, status_reg_at 6 r.2))
      = some (9, 0x7f, 0x80) := by
    decide
  obtain ⟨s1, -, e1, -, -, -, hst, hl, hps⟩ := init_spec
    (regDevice (fun reg => if reg = 0x9a then 9 :: DPS750TB1 else [0x55, 0])) 2 25 0 0x58 false
    (construct 0)
  simp only [e1, Option.map_some', Option.some.injEq, Prod.mk.injEq] at hev
  obtain ⟨hm0, h5, h6⟩ := hev
  have hwf : wellFormed s1 := wellFormed_of_profile_step hps (wellFormed_construct 0)
  have hl0 : s1.last_scan = 0 := hl
  have hdue : ¬ (1000 % 4294967296 + 4294967296 - s1.last_scan % 4294967296) % 4294967296
      < 1000 := by
    rw [hl0]
    decide
  obtain ⟨s2, e2, -, -, -, -, hm, -, -, -, -, hv⟩ := scan_spec
    (regDevice (fun reg => if reg = 0x9a then 9 :: DPS750TB1 else [0x55, 0])) 1000 s1 hdue hwf
  obtain ⟨-, -, hb, -⟩ := hv _ (answers_reads hans)
  have hp := (hm (by rw [hm0]; decide)).1
  simp only [profile, Prod.mk.injEq] at hp
  have hr : ∀ j, status_reg_at j s2 = status_reg_at j s1 := by
    intro j
    simp only [status_reg_at, hp.1]
  have b5 := hb 5 (by decide) (by rw [hr, h5]; decide)
  have b6 := hb 6 (by decide) (by rw [hr, h6]; decide)
  rw [hr, h5] at b5
  rw [hr, h6] at b6
  simp only [status, Prod.mk.injEq] at hst
  exact ⟨s1, s2, e1, hst.2.2.2.2.2.2.2.1, hst.2.2.2.2.2.2.2.2.1, h5, h6, e2, b5, b6⟩

/-- The status loop of a scan that is due, on a device that answers a read
request for the register `reg` with the bytes of `w reg`: for every status
category `i` in 0..7, when the entry `status_reg[i]` of the table is not 0
the status byte of the category is the low byte of the word at that
register, and when the entry is 0 the status byte is what it was before the
scan.  The table is the one in force during the scan, which is the one
before the scan when the model is already detected. -/
theorem scan_status_loop_bytes (dev : Device) (w : Nat → Nat) (now : Nat) (s : PMBus)
    (hdev : answers dev w)
    (hdue : ¬ (now % 4294967296 + 4294967296 - s.last_scan % 4294967296) % 4294967296 < 1000)
    (hwf : wellFormed s) :
    ∃ s1, scan dev now s = some (1, s1)
      ∧ (∀ i, i < 8 → status_reg_at i s1 ≠ 0 →
          status_byte_get i s1 = w (status_reg_at i s1 % 256) % 256)
      ∧ (∀ i, i < 8 → status_reg_at i s1 = 0 → status_byte_get i s1 = status_byte_get i s)
      ∧ (s.mfr_model.get 0 ≠ 0 → ∀ i, status_reg_at i s1 = status_reg_at i s) := by
  obtain ⟨s1, e, -, -, -, -, hm, -, hk, -, -, hv⟩ := scan_spec dev now s hdue hwf
  obtain ⟨-, -, hb, -⟩ := hv w (answers_reads hdev)
  refine ⟨s1, e, hb, fun i _ h0 => hk i h0, ?_⟩
  intro hmodel i
  have hp := (hm hmodel).1
  simp only [profile, Prod.mk.injEq] at hp
  simp only [status_reg_at, hp.1]

/-- After an init that has recognised the model `DPS750TB1` (the model
buffer it leaves begins, after the length byte, with the nine characters),
status_other and status_mfr_specific are 0 after any sequence of calls of
scan and clear_faults. -/
theorem polls_after_recognised_init (dev0 : Device) (pson i2c_enable direction : Int)
    (address : Nat) (Debug_Serial : Bool) (s0 s1 s2 : PMBus) (r : Int) (hwf0 : wellFormed s0)
    (hinit : init dev0 pson i2c_enable direction address Debug_Serial s0 = some (r, s1))
    (hdps : DPS750TB1 <+: s1.mfr_model.toList.drop 1) (hpolls : Polls s1 s2) :
    s2.status_other = 0 ∧ s2.status_mfr_specific = 0 := by
  have h := polls_keep hpolls (init_dps_table dev0 pson i2c_enable direction address
    Debug_Serial s0 s1 r hwf0 hinit hdps)
  exact ⟨h.2.2.2.1, h.2.2.2.2⟩

end PMBus
